import Mathlib

/-!
# PtrVec-Vs-UnionVec: a verification development of `src/Main.cpp`

The benchmark stores fixed-size records of `double`s in two ways (behind a
polymorphic base pointer, and inline in a hand-written tagged union), sums
them repeatedly and reports smoothed timings.

Modelling conventions.

* A finite `double` is the rational number it denotes (`Double := ℚ`).  Every
  arithmetic operation of the source is the exact operation followed by the
  rounding function `Env.rnd` of the platform.  `binary64` below is the IEEE-754
  round-to-nearest-even function for a significand of 53 bits; its exponent
  range is unbounded, so overflow (infinities, NaN) and underflow (subnormal
  numbers, below `2^-1022`) are not modelled.
* `rand()` reads the next entry of the stream `Env.rng`; the cursor into that
  stream is threaded through every function that draws from it.
* `RAND_MAX`, the clock readings and the conversion of a tick count to
  microseconds come from the C++ runtime and are fields of `Env`.
* Storage that C++ leaves uninitialised holds arbitrary values: constructors
  take the previous contents of their storage as the argument `raw`, and `main`
  obtains fresh storage from `Env.junk`.
* The report is the sequence of insertions into `std::cout`; how the stream
  formats a `double` is a parameter (`fmt`).
* A record is its buffer of `double`s; the storage of the union is its 243
  `double` slots.  Addresses, the vtable pointer of a record and the heap are not
  part of the model, and `vecLength` and `runThroughs` are parameters of `run`
  (`main` is `run` at the constants of the source).
-/

namespace PtrVecVsUnionVec

/-- A finite `double`, identified with the rational number it denotes. -/
abbrev Double := ℚ

/-- Round a rational to the nearest integer, ties to the even neighbour. -/
def roundHalfEven (q : ℚ) : ℤ :=
  if q - ⌊q⌋ < 1 / 2 then ⌊q⌋
  else if 1 / 2 < q - ⌊q⌋ then ⌊q⌋ + 1
  else if ⌊q⌋ % 2 = 0 then ⌊q⌋ else ⌊q⌋ + 1

/-- Number of halvings that bring `n` below 2, at most `fuel` of them. -/
def log2Fuel : ℕ → ℕ → ℕ
  | 0, _ => 0
  | fuel + 1, n => if n < 2 then 0 else log2Fuel fuel (n / 2) + 1

/-- The integer `⌊log₂ n⌋` of a natural number `n` (0 for `n = 0`). -/
def natLog2 (n : ℕ) : ℕ := log2Fuel n n

/-- The integer `⌊log₂ r⌋` of a positive rational `r`. -/
def floorLog2 (r : ℚ) : ℤ :=
  if 1 ≤ r then (natLog2 ⌊r⌋₊ : ℤ)
  else if ⌈r⁻¹⌉₊ ≤ 1 then 0
  else -((natLog2 (⌈r⁻¹⌉₊ - 1) : ℤ) + 1)

/-- Exponent of the binade of `x`: the integer `⌊log₂ |x|⌋`. -/
def binade (x : ℚ) : ℤ := floorLog2 |x|

/-- IEEE-754 binary64 rounding to nearest, ties to even, of an exact result:
the result is the multiple of `2 ^ (binade x - 52)` nearest to `x`, so that it
has a significand of 53 bits.  The exponent range is not bounded. -/
def binary64 (x : ℚ) : ℚ :=
  roundHalfEven (x / 2 ^ (binade x - 52)) * 2 ^ (binade x - 52)

/-- What the C++ runtime and the machine supply to the program. -/
structure Env where
  /-- rounding of an exact arithmetic result to a `double` -/
  rnd : ℚ → ℚ
  /-- the constant `RAND_MAX` of `<cstdlib>` -/
  RAND_MAX : ℕ
  /-- the successive results of `rand()` -/
  rng : ℕ → ℕ
  /-- the successive readings of `high_resolution_clock::now()`, in ticks -/
  clock : ℕ → ℤ
  /-- the value of `duration<double, std::micro>(d).count()` for a tick difference `d` -/
  micros : ℤ → Double
  /-- the value found in slot `k` of storage that was never written -/
  junk : ℕ → Double

/-- Conversion of an `int` to `double`. -/
def Env.ofInt (env : Env) (n : ℤ) : Double := env.rnd n

/-- The `double` addition `a + b`. -/
def Env.add (env : Env) (a b : Double) : Double := env.rnd (a + b)

/-- The `double` multiplication `a * b`. -/
def Env.mul (env : Env) (a b : Double) : Double := env.rnd (a * b)

/-- The `double` division `a / b`. -/
def Env.div (env : Env) (a b : Double) : Double := env.rnd (a / b)

/-- The literal `0.5`. -/
def half : Double := 1 / 2

/-- Function `std::accumulate (first, last, init)` over the values in the range. -/
def accumulate (env : Env) (range : List Double) (init : Double) : Double :=
  range.foldl (fun acc x => env.add acc x) init

/-- A `std::array<double, N>`. -/
abbrev StdArray (N : ℕ) := { l : List Double // l.length = N }

/-- The loop of `fillData` over the slots of the buffer: each slot, in order,
receives `rand() / (double) RAND_MAX`. -/
def fillLoop (env : Env) : List Double → ℕ → List Double × ℕ
  | [], pos => ([], pos)
  | _ :: rest, pos =>
    let d := env.div (env.ofInt (env.rng pos)) (env.ofInt env.RAND_MAX)
    let r := fillLoop env rest (pos + 1)
    (d :: r.1, r.2)

/-- Function `fillData (data)`: returns the new contents of `data` and the new
cursor into the random stream. -/
def fillData (env : Env) {N : ℕ} (data : StdArray N) (pos : ℕ) : StdArray N × ℕ :=
  (⟨(fillLoop env data.1 pos).1, by
      have h : ∀ (l : List Double) (p : ℕ), (fillLoop env l p).1.length = l.length := by
        intro l
        induction l with
        | nil => intro p; rfl
        | cons _ rest ih => intro p; simp [fillLoop, ih]
      rw [h]; exact data.2⟩,
   (fillLoop env data.1 pos).2)

/-- The record type `ValueDerived<N>`: its only data member is `data`. -/
structure ValueDerived (N : ℕ) where
  data : StdArray N

/-- Constructor `ValueDerived()`: `fillData (data)` on the storage of the new
object, whose previous contents are `raw`. -/
def ValueDerived.new (env : Env) {N : ℕ} (raw : StdArray N) (pos : ℕ) :
    ValueDerived N × ℕ :=
  (⟨(fillData env raw pos).1⟩, (fillData env raw pos).2)

/-- Constant `struct1`. -/
def struct1 : ℕ := 81
/-- Constant `struct2`. -/
def struct2 : ℕ := 162
/-- Constant `struct3`. -/
def struct3 : ℕ := 243

abbrev ValueType0 := ValueDerived struct1
abbrev ValueType1 := ValueDerived struct2
abbrev ValueType2 := ValueDerived struct3

/-- The pair `ValueBase::DataRange`: the buffer the pointer points to, and the
number of values. -/
abbrev DataRange := List Double × ℕ

/-- Override `ValueDerived<N>::getData`: `{ data.data(), data.size() }`. -/
def ValueDerived.getData {N : ℕ} (v : ValueDerived N) : DataRange :=
  (v.data.1, N)

/-- An object seen through `ValueBase`: its dynamic type is one of the three
instantiations of `ValueDerived` that the program creates. -/
inductive ValueBase where
  | derived0 (v : ValueType0)
  | derived1 (v : ValueType1)
  | derived2 (v : ValueType2)

/-- The virtual call `getData()`. -/
def ValueBase.getData : ValueBase → DataRange
  | .derived0 v => v.getData
  | .derived1 v => v.getData
  | .derived2 v => v.getData

/-- Method `ValueBase::count`: accumulate over `[data.first, data.first + data.second)`. -/
def ValueBase.count (env : Env) (b : ValueBase) : Double :=
  let data := b.getData
  accumulate env (data.1.take data.2) 0

/-- The enumeration `TaggedUnion::Tag`, as its underlying integer. -/
abbrev Tag := ℕ
def Tag.type0 : Tag := 0
def Tag.type1 : Tag := 1
def Tag.type2 : Tag := 2

/-- Number of `double` slots of `union Value`: the members `t0`, `t1`, `t2`
share their first slot, so the union is as large as its largest member. -/
def sizeofValue : ℕ := max struct1 (max struct2 struct3)

/-- The storage of `union Value`, as its `double` slots. -/
structure Value where
  mem : StdArray sizeofValue

/-- The first `N` slots of a storage of `M` slots, as an array. -/
def slots {M : ℕ} (mem : StdArray M) (N : ℕ) (h : N ≤ M) : StdArray N :=
  ⟨mem.1.take N, by rw [List.length_take, mem.2]; exact Nat.min_eq_left h⟩

/-- Member `t0` of the union: the first `struct1` slots. -/
def Value.t0 (v : Value) : ValueType0 :=
  ⟨slots v.mem struct1 (by decide)⟩
/-- Member `t1` of the union: the first `struct2` slots. -/
def Value.t1 (v : Value) : ValueType1 :=
  ⟨slots v.mem struct2 (by decide)⟩
/-- Member `t2` of the union: the first `struct3` slots. -/
def Value.t2 (v : Value) : ValueType2 :=
  ⟨slots v.mem struct3 (by decide)⟩

/-- Writing the `N` values of `src` over the first slots of a storage of `M`
slots; the slots behind them keep their contents. -/
def store {M N : ℕ} (dst : StdArray M) (src : StdArray N) (h : N ≤ M) : StdArray M :=
  ⟨src.1 ++ dst.1.drop N, by rw [List.length_append, List.length_drop, src.2, dst.2]; omega⟩

/-- The assignment `value.t0 = t`. -/
def Value.assignT0 (v : Value) (t : ValueType0) : Value := ⟨store v.mem t.data (by decide)⟩
/-- The assignment `value.t1 = t`. -/
def Value.assignT1 (v : Value) (t : ValueType1) : Value := ⟨store v.mem t.data (by decide)⟩
/-- The assignment `value.t2 = t`. -/
def Value.assignT2 (v : Value) (t : ValueType2) : Value := ⟨store v.mem t.data (by decide)⟩

/-- Constructor `Value()`: `new (&t0) ValueType0()` on storage whose previous
contents are `raw`. -/
def Value.new (env : Env) (raw : StdArray sizeofValue) (pos : ℕ) : Value × ℕ :=
  let t := ValueDerived.new env (Value.t0 ⟨raw⟩).data pos
  (⟨store raw t.1.data (by decide)⟩, t.2)

/-- Function `std::memcpy (dst, src, n)`, in `double` slots. -/
def memcpy (dst src : List Double) (n : ℕ) : List Double :=
  src.take n ++ dst.drop n

/-- Constructor `Value (const Value& o)`: `memcpy (this, &o, sizeof (Value))`
on storage whose previous contents are `raw`. -/
def Value.copy (raw : StdArray sizeofValue) (o : Value) : Value :=
  ⟨⟨memcpy raw.1 o.mem.1 sizeofValue, by
    rw [memcpy, List.length_append, List.length_take, List.length_drop, raw.2, o.mem.2]; simp⟩⟩

/-- The struct `TaggedUnion`. -/
structure TaggedUnion where
  value : Value
  tag : Tag

/-- Constructor `TaggedUnion (ValueType0 t)`: the member `value` is default
constructed, then `value.t0 = t; tag = Tag::type0`. -/
def TaggedUnion.ofType0 (env : Env) (raw : StdArray sizeofValue) (t : ValueType0) (pos : ℕ) :
    TaggedUnion × ℕ :=
  let value := Value.new env raw pos
  (⟨value.1.assignT0 t, Tag.type0⟩, value.2)

/-- Constructor `TaggedUnion (ValueType1 t)`. -/
def TaggedUnion.ofType1 (env : Env) (raw : StdArray sizeofValue) (t : ValueType1) (pos : ℕ) :
    TaggedUnion × ℕ :=
  let value := Value.new env raw pos
  (⟨value.1.assignT1 t, Tag.type1⟩, value.2)

/-- Constructor `TaggedUnion (ValueType2 t)`. -/
def TaggedUnion.ofType2 (env : Env) (raw : StdArray sizeofValue) (t : ValueType2) (pos : ℕ) :
    TaggedUnion × ℕ :=
  let value := Value.new env raw pos
  (⟨value.1.assignT2 t, Tag.type2⟩, value.2)

/-- The implicit copy constructor of `TaggedUnion`: member-wise, `value`
through `Value (const Value&)`. -/
def TaggedUnion.copy (raw : StdArray sizeofValue) (u : TaggedUnion) : TaggedUnion :=
  ⟨Value.copy raw u.value, u.tag⟩

/-- Method `TaggedUnion::count`. -/
def TaggedUnion.count (env : Env) (u : TaggedUnion) : Double :=
  match u.tag with
  | 0 => accumulate env u.value.t0.data.1 0
  | 1 => accumulate env u.value.t1.data.1 0
  | 2 => accumulate env u.value.t2.data.1 0
  | _ => 0

/-- Fresh storage of `N` slots, not yet written by the program. -/
def Env.uninit (env : Env) (N : ℕ) : StdArray N :=
  ⟨(List.range N).map env.junk, by simp⟩

/-- The three vectors of `main`, and the cursor into the random stream. -/
structure Population where
  ptrVec : List ValueBase
  heapFragmenter : List ValueBase
  unionVec : List TaggedUnion
  pos : ℕ

/-- The statement `unionVec.push_back (u)`: the vector receives a copy of `u`. -/
def pushUnion (env : Env) (unionVec : List TaggedUnion) (u : TaggedUnion) : List TaggedUnion :=
  unionVec ++ [TaggedUnion.copy (env.uninit sizeofValue) u]

/-- The `switch (rand1)` of the population loop, entered with the cursor
`pos` behind the two selectors. -/
def populateSwitch (env : Env) (s : Population) (rand1 : ℕ) (pos : ℕ) : Population :=
  match rand1 with
  | 0 =>
    let p := ValueDerived.new env (env.uninit struct1) pos
    let t := ValueDerived.new env (env.uninit struct1) p.2
    let u := TaggedUnion.ofType0 env (env.uninit sizeofValue) t.1 t.2
    { s with ptrVec := s.ptrVec ++ [ValueBase.derived0 p.1],
             unionVec := pushUnion env s.unionVec u.1, pos := u.2 }
  | 1 =>
    let p := ValueDerived.new env (env.uninit struct2) pos
    let t := ValueDerived.new env (env.uninit struct2) p.2
    let u := TaggedUnion.ofType1 env (env.uninit sizeofValue) t.1 t.2
    { s with ptrVec := s.ptrVec ++ [ValueBase.derived1 p.1],
             unionVec := pushUnion env s.unionVec u.1, pos := u.2 }
  | 2 =>
    let p := ValueDerived.new env (env.uninit struct3) pos
    let t := ValueDerived.new env (env.uninit struct3) p.2
    let u := TaggedUnion.ofType2 env (env.uninit sizeofValue) t.1 t.2
    { s with ptrVec := s.ptrVec ++ [ValueBase.derived2 p.1],
             unionVec := pushUnion env s.unionVec u.1, pos := u.2 }
  | _ => { s with pos := pos }

/-- One iteration of the population loop of `main`. -/
def populateStep (env : Env) (s : Population) : Population :=
  let rand1 := env.rng s.pos % 3
  let rand2 := env.rng (s.pos + 1) % 2
  let s1 := populateSwitch env s rand1 (s.pos + 2)
  if rand2 = 0 then
    let f := ValueDerived.new env (env.uninit struct3) s1.pos
    { s1 with heapFragmenter := s1.heapFragmenter ++ [ValueBase.derived2 f.1], pos := f.2 }
  else s1

/-- The population loop `for (i = 0; i < vecLength; ++i)`, from state `s`. -/
def populateLoop (env : Env) : ℕ → Population → Population
  | 0, s => s
  | n + 1, s => populateLoop env n (populateStep env s)

/-- The population phase: the three vectors start empty. -/
def populate (env : Env) (vecLength : ℕ) : Population :=
  populateLoop env vecLength ⟨[], [], [], 0⟩

/-- The variables of the timed phase of `main`. -/
structure Timed where
  ptrVec : List ValueBase
  heapFragmenter : List ValueBase
  unionVec : List TaggedUnion
  ptrThrowawayResult : Double
  unionThrowawayResult : Double
  ptrTimeUs : Double
  unionTimeUs : Double
  /-- number of clock readings taken so far -/
  now : ℕ

/-- The traversal `for (auto& ptr : ptrVec) ptrThrowawayResult += ptr->count();`. -/
def ptrPass (env : Env) (ptrVec : List ValueBase) (ptrThrowawayResult : Double) : Double :=
  ptrVec.foldl (fun r ptr => env.add r (ptr.count env)) ptrThrowawayResult

/-- The traversal `for (auto& un : unionVec) unionThrowawayResult += un.count();`. -/
def unionPass (env : Env) (unionVec : List TaggedUnion) (unionThrowawayResult : Double) :
    Double :=
  unionVec.foldl (fun r un => env.add r (un.count env)) unionThrowawayResult

/-- Trial `i` of the loop over the vector of pointers. -/
def ptrTrial (env : Env) (s : Timed) (i : ℕ) : Timed :=
  let start := env.clock s.now
  let result := ptrPass env s.ptrVec s.ptrThrowawayResult
  let stop := env.clock (s.now + 1)
  let elapsed := env.micros (stop - start)
  { s with ptrThrowawayResult := result,
           ptrTimeUs := if i = 0 then elapsed else env.mul (env.add s.ptrTimeUs elapsed) half,
           now := s.now + 2 }

/-- Trial `i` of the loop over the vector of tagged unions. -/
def unionTrial (env : Env) (s : Timed) (i : ℕ) : Timed :=
  let start := env.clock s.now
  let result := unionPass env s.unionVec s.unionThrowawayResult
  let stop := env.clock (s.now + 1)
  let elapsed := env.micros (stop - start)
  { s with unionThrowawayResult := result,
           unionTimeUs := if i = 0 then elapsed else env.mul (env.add s.unionTimeUs elapsed) half,
           now := s.now + 2 }

/-- The loop `for (int i = 0; i < runThroughs; ++i)` over the vector of pointers. -/
def ptrTrials (env : Env) (runThroughs : ℕ) (s : Timed) : Timed :=
  (List.range runThroughs).foldl (ptrTrial env) s

/-- The loop `for (int i = 0; i < runThroughs; ++i)` over the vector of unions. -/
def unionTrials (env : Env) (runThroughs : ℕ) (s : Timed) : Timed :=
  (List.range runThroughs).foldl (unionTrial env) s

/-- The state at the start of the timed phase: the four `double`s are `0.0`. -/
def Timed.init (p : Population) : Timed :=
  ⟨p.ptrVec, p.heapFragmenter, p.unionVec, 0, 0, 0, 0, 0⟩

/-- The timed phase of `main`: the pointer trials, then the union trials. -/
def timedPhase (env : Env) (runThroughs : ℕ) (s : Timed) : Timed :=
  unionTrials env runThroughs (ptrTrials env runThroughs s)

/-- The body of `main` up to the report, for a given `vecLength` and `runThroughs`. -/
def run (env : Env) (vecLength runThroughs : ℕ) : Timed :=
  timedPhase env runThroughs (Timed.init (populate env vecLength))

/-- Constant `vecLength` of `main`. -/
def vecLength : ℕ := 1000000
/-- Constant `runThroughs` of `main`. -/
def runThroughs : ℕ := 5

/-- The function `main`, up to the report. -/
def main (env : Env) : Timed := run env vecLength runThroughs

/-- The platform of exact arithmetic: no rounding, a clock of nanosecond ticks. -/
def exactEnv (RAND_MAX : ℕ) (rng : ℕ → ℕ) (clock : ℕ → ℤ) : Env :=
  ⟨id, RAND_MAX, rng, clock, fun d => (d : ℚ) / 1000, fun _ => 0⟩

/-- The platform of IEEE-754 binary64 arithmetic with `RAND_MAX = 2^31 - 1`
and a clock of nanosecond ticks: a tick difference `d` becomes `d / 1000.0`. -/
def ieeeEnv (rng : ℕ → ℕ) (clock : ℕ → ℤ) : Env :=
  ⟨binary64, 2147483647, rng, clock,
   fun d => binary64 (binary64 (d : ℚ) / binary64 1000), fun _ => 0⟩

/-- Index of the dynamic type behind a `ValueBase` handle: 0, 1 or 2 for
`ValueType0`, `ValueType1`, `ValueType2`. -/
def ValueBase.typeIndex : ValueBase → ℕ
  | .derived0 _ => 0
  | .derived1 _ => 1
  | .derived2 _ => 2

/-- A sample platform: binary64 arithmetic, `rand()` returning
`(1103515245 * i + 12345) mod 2^31` at its call number `i`, and a clock that
advances by 5000 ticks between two readings. -/
def sampleEnv : Env :=
  ieeeEnv (fun i => (1103515245 * i + 12345) % 2147483648) (fun k => 5000 * k)

/-- A second sample platform: as `sampleEnv`, with the random stream started
six calls later. -/
def driftEnv : Env :=
  ieeeEnv (fun i => (1103515245 * (i + 6) + 12345) % 2147483648) (fun k => 5000 * k)

/-- A record of `N` values whose buffer holds `c` in every slot. -/
def constRecord (N : ℕ) (c : Double) : ValueDerived N :=
  ⟨⟨List.replicate N c, List.length_replicate N c⟩⟩

/-- The raw elapsed time of the trial that starts at clock reading `k`. -/
def Env.elapsed (env : Env) (k : ℕ) : Double :=
  env.micros (env.clock (k + 1) - env.clock k)

/-- The sample platform with exact arithmetic in place of binary64. -/
def exactSampleEnv : Env := exactEnv 2147483647 sampleEnv.rng sampleEnv.clock

/-- One insertion into `std::cout`: a string literal, a `std::size_t`, or a
`double`. -/
inductive Piece where
  | text (s : String)
  | size (n : ℕ)
  | dbl (d : Double)

/-- The two output statements of `main`, as the sequence of their insertions. -/
def report (vecLength : ℕ) (s : Timed) : List Piece :=
  [Piece.size vecLength, Piece.text " iterations. \n",
   Piece.text "struct sizes: ", Piece.size struct1, Piece.text ", ", Piece.size struct2,
   Piece.text ", ", Piece.size struct3, Piece.text " (doubles)\n-------- \n",
   Piece.text "vec of pointers took: ", Piece.dbl s.ptrTimeUs, Piece.text "us \n",
   Piece.text "vec of unions took: ", Piece.dbl s.unionTimeUs, Piece.text "us \n",
   Piece.text "ptrs result: ", Piece.dbl s.ptrThrowawayResult,
   Piece.text ", union result: ", Piece.dbl s.unionThrowawayResult, Piece.text "\n"]

/-- The characters that one insertion writes; `fmt` is the formatting of a
`double` by the stream. -/
def Piece.render (fmt : Double → String) : Piece → String
  | .text s => s
  | .size n => toString n
  | .dbl d => fmt d

/-- The text written to the standard output. -/
def reportText (fmt : Double → String) (vecLength : ℕ) (s : Timed) : String :=
  String.join ((report vecLength s).map (Piece.render fmt))

/-- The insertions that are not string literals. -/
def Piece.isValue : Piece → Bool
  | .text _ => false
  | _ => true

/-- The buffer length of shape `k`. -/
def shapeLength (k : ℕ) : ℕ := [struct1, struct2, struct3].getD k 0

/-- The tagged unions that arise in the program, with the shape `k` and the
buffer `d` of the record that the last assignment wrote into the storage:
a value built by one of the three converting constructors, or a copy of a
value that arises. -/
inductive Written (env : Env) : TaggedUnion → ℕ → List Double → Prop where
  | ofType0 (raw : StdArray sizeofValue) (t : ValueType0) (pos : ℕ) :
      Written env (TaggedUnion.ofType0 env raw t pos).1 0 t.data.1
  | ofType1 (raw : StdArray sizeofValue) (t : ValueType1) (pos : ℕ) :
      Written env (TaggedUnion.ofType1 env raw t pos).1 1 t.data.1
  | ofType2 (raw : StdArray sizeofValue) (t : ValueType2) (pos : ℕ) :
      Written env (TaggedUnion.ofType2 env raw t pos).1 2 t.data.1
  | copy (raw : StdArray sizeofValue) (u : TaggedUnion) (k : ℕ) (d : List Double) :
      Written env u k d → Written env (TaggedUnion.copy raw u) k d

/-- Number of results `r` of `rand()`, among `0 .. RAND_MAX`, for which the
shape selector `r % 3` is `k`. -/
def selectorCount (RAND_MAX k : ℕ) : ℕ :=
  (List.range (RAND_MAX + 1)).countP (fun r => r % 3 = k)

/-- The value that `fillData` makes of entry `j` of the random stream. -/
def Env.draw (env : Env) (j : ℕ) : Double :=
  env.div (env.ofInt (env.rng j)) (env.ofInt env.RAND_MAX)

/-- The values made of the `len` entries of the random stream from `start` on. -/
def Env.segment (env : Env) (start len : ℕ) : List Double :=
  (List.range len).map (fun i => env.draw (start + i))

/-! # Theorems -/

/-! ## The rounding function `binary64` -/

theorem log2Fuel_eq (fuel n : ℕ) (h : n ≤ fuel) : log2Fuel fuel n = Nat.log 2 n := by
  induction fuel generalizing n with
  | zero =>
    have hn : n = 0 := by omega
    subst hn; simp [log2Fuel]
  | succ f ih =>
    unfold log2Fuel
    split_ifs with h2
    · exact (Nat.log_of_lt h2).symm
    · have h3 : 2 ≤ n := by omega
      have h4 : n / 2 ≤ f := by omega
      rw [ih (n / 2) h4, Nat.log_of_one_lt_of_le (by norm_num) h3]

theorem natLog2_eq (n : ℕ) : natLog2 n = Nat.log 2 n := log2Fuel_eq n n le_rfl

theorem clog_two_eq (m : ℕ) (hm : 2 ≤ m) : Nat.clog 2 m = Nat.log 2 (m - 1) + 1 := by
  apply le_antisymm
  · rw [← Nat.le_pow_iff_clog_le (by norm_num)]
    have h := (Nat.lt_pow_iff_log_lt (b := 2) (by norm_num) (x := Nat.log 2 (m - 1) + 1)
      (y := m - 1) (by omega)).2 (by omega)
    omega
  · have h := (Nat.le_pow_iff_clog_le (b := 2) (by norm_num) (x := m) (y := Nat.clog 2 m)).2 le_rfl
    have h2 : m - 1 < 2 ^ Nat.clog 2 m := by omega
    have h3 := (Nat.lt_pow_iff_log_lt (b := 2) (by norm_num) (x := Nat.clog 2 m)
      (y := m - 1) (by omega)).1 h2
    omega

theorem floorLog2_eq (r : ℚ) : floorLog2 r = Int.log 2 r := by
  unfold floorLog2
  split_ifs with h1 h2
  · rw [Int.log_of_one_le_right 2 h1, natLog2_eq]
  · rw [Int.log_of_right_le_one 2 (le_of_not_le h1), Nat.clog_of_right_le_one h2]; simp
  · rw [Int.log_of_right_le_one 2 (le_of_not_le h1), clog_two_eq _ (by omega), natLog2_eq]
    push_cast; ring

theorem binade_le (x : ℚ) (hx : x ≠ 0) : (2 : ℚ) ^ binade x ≤ |x| := by
  have h := Int.zpow_log_le_self (b := 2) (r := |x|) (by norm_num) (abs_pos.2 hx)
  rw [binade, floorLog2_eq]; exact_mod_cast h

theorem lt_binade (x : ℚ) : |x| < (2 : ℚ) ^ (binade x + 1) := by
  have h := Int.lt_zpow_succ_log_self (b := 2) (by norm_num) |x|
  rw [binade, floorLog2_eq]; exact_mod_cast h

theorem binade_unique (x : ℚ) (e : ℤ) (h1 : (2 : ℚ) ^ e ≤ |x|) (h2 : |x| < (2 : ℚ) ^ (e + 1)) :
    binade x = e := by
  have hpos : 0 < |x| := lt_of_lt_of_le (by positivity) h1
  have a := (Int.zpow_le_iff_le_log (b := 2) (by norm_num) (x := e) hpos).1 (by exact_mod_cast h1)
  have b := (Int.lt_zpow_iff_log_lt (b := 2) (by norm_num) (x := e + 1) hpos).1
    (by exact_mod_cast h2)
  rw [binade, floorLog2_eq]; omega

/-- The result of `roundHalfEven` is within 1/2 of its argument, and even when
it is exactly 1/2 away. -/
theorem roundHalfEven_spec (q : ℚ) :
    |(roundHalfEven q : ℚ) - q| ≤ 1 / 2 ∧
      (|(roundHalfEven q : ℚ) - q| = 1 / 2 → roundHalfEven q % 2 = 0) := by
  have hf1 : (⌊q⌋ : ℚ) ≤ q := Int.floor_le q
  have hf2 : q < ⌊q⌋ + 1 := Int.lt_floor_add_one q
  unfold roundHalfEven
  split_ifs with h1 h2 h3
  · constructor
    · rw [abs_le]; constructor <;> linarith
    · intro h
      rw [abs_of_nonpos (by linarith)] at h
      linarith
  · push_cast
    constructor
    · rw [abs_le]; constructor <;> linarith
    · intro h
      rw [abs_of_nonneg (by linarith)] at h
      linarith
  · constructor
    · rw [abs_le]; constructor <;> linarith
    · intro _; exact h3
  · push_cast
    constructor
    · rw [abs_le]; constructor <;> linarith
    · intro _; omega

/-- Uniqueness: an integer that meets the specification is the result. -/
theorem roundHalfEven_unique (q : ℚ) (n : ℤ) (h1 : |(n : ℚ) - q| ≤ 1 / 2)
    (h2 : |(n : ℚ) - q| = 1 / 2 → n % 2 = 0) : roundHalfEven q = n := by
  obtain ⟨k1, k2⟩ := roundHalfEven_spec q
  rw [abs_le] at h1 k1
  have hd1 : (roundHalfEven q : ℚ) - n ≤ 1 := by linarith
  have hd2 : (n : ℚ) - roundHalfEven q ≤ 1 := by linarith
  have hd1z : roundHalfEven q - n ≤ 1 := by exact_mod_cast hd1
  have hd2z : n - roundHalfEven q ≤ 1 := by exact_mod_cast hd2
  by_contra hne
  rcases lt_or_gt_of_ne hne with hlt | hgt
  · have e : n = roundHalfEven q + 1 := by omega
    have eq : (n : ℚ) = roundHalfEven q + 1 := by exact_mod_cast e
    have a1 : |(n : ℚ) - q| = 1 / 2 := by
      rw [abs_of_nonneg (by linarith)]; linarith
    have a2 : |(roundHalfEven q : ℚ) - q| = 1 / 2 := by
      rw [abs_of_nonpos (by linarith)]; linarith
    have := h2 a1
    have := k2 a2
    omega
  · have e : roundHalfEven q = n + 1 := by omega
    have eq : (roundHalfEven q : ℚ) = n + 1 := by exact_mod_cast e
    have a1 : |(n : ℚ) - q| = 1 / 2 := by
      rw [abs_of_nonpos (by linarith)]; linarith
    have a2 : |(roundHalfEven q : ℚ) - q| = 1 / 2 := by
      rw [abs_of_nonneg (by linarith)]; linarith
    have := h2 a1
    have := k2 a2
    omega

theorem roundHalfEven_intCast (n : ℤ) : roundHalfEven (n : ℚ) = n :=
  roundHalfEven_unique _ n (by simp) (by simp)

theorem roundHalfEven_neg (q : ℚ) : roundHalfEven (-q) = -roundHalfEven q := by
  obtain ⟨k1, k2⟩ := roundHalfEven_spec q
  have e : (((-roundHalfEven q : ℤ)) : ℚ) - -q = -((roundHalfEven q : ℚ) - q) := by
    push_cast; ring
  apply roundHalfEven_unique
  · rw [e, abs_neg]; exact k1
  · rw [e, abs_neg]; intro h; have := k2 h; omega

theorem roundHalfEven_mono {p q : ℚ} (h : p ≤ q) : roundHalfEven p ≤ roundHalfEven q := by
  obtain ⟨k1, k2⟩ := roundHalfEven_spec p
  obtain ⟨m1, m2⟩ := roundHalfEven_spec q
  by_contra hlt
  push_neg at hlt
  have hz : roundHalfEven q + 1 ≤ roundHalfEven p := hlt
  have hq : (roundHalfEven q : ℚ) + 1 ≤ roundHalfEven p := by exact_mod_cast hz
  rw [abs_le] at k1 m1
  have hpq : p = q := by linarith
  subst hpq
  omega

theorem binary64_zero : binary64 0 = 0 := by
  have h := roundHalfEven_intCast 0
  simp only [Int.cast_zero] at h
  simp [binary64, h]

theorem binary64_neg (x : ℚ) : binary64 (-x) = -binary64 x := by
  have hb : binade (-x) = binade x := by simp [binade]
  simp only [binary64, hb, neg_div, roundHalfEven_neg]
  push_cast; ring

/-- A number with a significand of 53 bits is its own rounding. -/
theorem binary64_repr (n e : ℤ) (h1 : 2 ^ 52 ≤ |n|) (h2 : |n| < 2 ^ 53) :
    binary64 ((n : ℚ) * 2 ^ (e - 52)) = (n : ℚ) * 2 ^ (e - 52) := by
  have hu : (0 : ℚ) < 2 ^ (e - 52) := by positivity
  have q1 : (2 : ℚ) ^ (52 : ℤ) ≤ |(n : ℚ)| := by
    have : ((2 ^ 52 : ℤ) : ℚ) ≤ ((|n| : ℤ) : ℚ) := by exact_mod_cast h1
    rw [Int.cast_abs] at this
    norm_num at this ⊢
    exact this
  have q2 : |(n : ℚ)| < (2 : ℚ) ^ (53 : ℤ) := by
    have : ((|n| : ℤ) : ℚ) < ((2 ^ 53 : ℤ) : ℚ) := by exact_mod_cast h2
    rw [Int.cast_abs] at this
    norm_num at this ⊢
    exact this
  have hb : binade ((n : ℚ) * 2 ^ (e - 52)) = e := by
    apply binade_unique
    · rw [abs_mul, abs_of_pos hu]
      calc (2 : ℚ) ^ e = 2 ^ (52 : ℤ) * 2 ^ (e - 52) := by
            rw [← zpow_add₀ (by norm_num)]; congr 1; ring
        _ ≤ |(n : ℚ)| * 2 ^ (e - 52) := by gcongr
    · rw [abs_mul, abs_of_pos hu]
      calc |(n : ℚ)| * 2 ^ (e - 52) < 2 ^ (53 : ℤ) * 2 ^ (e - 52) := by gcongr
        _ = (2 : ℚ) ^ (e + 1) := by
            rw [← zpow_add₀ (by norm_num)]; congr 1; ring
  rw [binary64, hb, mul_div_assoc, div_self (ne_of_gt hu), mul_one, roundHalfEven_intCast]

/-- The significand chosen for a positive number has 53 bits, or is `2 ^ 53`. -/
theorem significand_bounds (x : ℚ) (hx : 0 < x) :
    2 ^ 52 ≤ roundHalfEven (x / 2 ^ (binade x - 52)) ∧
      roundHalfEven (x / 2 ^ (binade x - 52)) ≤ 2 ^ 53 := by
  have hu : (0 : ℚ) < 2 ^ (binade x - 52) := by positivity
  have h1 := binade_le x (ne_of_gt hx)
  have h2 := lt_binade x
  rw [abs_of_pos hx] at h1 h2
  have q1 : (((2 ^ 52 : ℤ)) : ℚ) ≤ x / 2 ^ (binade x - 52) := by
    rw [le_div_iff₀ hu]
    calc (((2 ^ 52 : ℤ)) : ℚ) * 2 ^ (binade x - 52) = 2 ^ (52 : ℤ) * 2 ^ (binade x - 52) := by
          norm_num
      _ = (2 : ℚ) ^ binade x := by rw [← zpow_add₀ (by norm_num)]; congr 1; ring
      _ ≤ x := h1
  have q2 : x / 2 ^ (binade x - 52) ≤ (((2 ^ 53 : ℤ)) : ℚ) := by
    rw [div_le_iff₀ hu]
    calc x ≤ (2 : ℚ) ^ (binade x + 1) := le_of_lt h2
      _ = 2 ^ (53 : ℤ) * 2 ^ (binade x - 52) := by
          rw [← zpow_add₀ (by norm_num)]; congr 1; ring
      _ = (((2 ^ 53 : ℤ)) : ℚ) * 2 ^ (binade x - 52) := by norm_num
  have a := roundHalfEven_mono q1
  have b := roundHalfEven_mono q2
  rw [roundHalfEven_intCast] at a b
  exact ⟨a, b⟩

theorem binary64_idem_pos (x : ℚ) (hx : 0 < x) : binary64 (binary64 x) = binary64 x := by
  obtain ⟨h1, h2⟩ := significand_bounds x hx
  rcases lt_or_eq_of_le h2 with hlt | heq
  · rw [binary64]
    exact binary64_repr _ (binade x) (by rw [abs_of_nonneg (by omega)]; exact h1)
      (by rw [abs_of_nonneg (by omega)]; exact hlt)
  · have e : binary64 x = ((2 ^ 52 : ℤ) : ℚ) * 2 ^ (binade x + 1 - 52) := by
      rw [binary64, heq]
      push_cast
      rw [show binade x + 1 - 52 = (binade x - 52) + 1 by ring, zpow_add₀ (by norm_num)]
      ring
    rw [e]
    exact binary64_repr _ _ (by norm_num) (by norm_num)

theorem binary64_idem (x : ℚ) : binary64 (binary64 x) = binary64 x := by
  rcases lt_trichotomy x 0 with h | h | h
  · have := binary64_idem_pos (-x) (by linarith)
    rw [binary64_neg, binary64_neg] at this
    linarith
  · subst h; rw [binary64_zero, binary64_zero]
  · exact binary64_idem_pos x h

theorem binary64_pos_bounds (x : ℚ) (hx : 0 < x) :
    (2 : ℚ) ^ binade x ≤ binary64 x ∧ binary64 x ≤ (2 : ℚ) ^ (binade x + 1) := by
  obtain ⟨h1, h2⟩ := significand_bounds x hx
  have hu : (0 : ℚ) < 2 ^ (binade x - 52) := by positivity
  have q1 : (2 : ℚ) ^ (52 : ℤ) ≤ (roundHalfEven (x / 2 ^ (binade x - 52)) : ℚ) := by
    have : ((2 ^ 52 : ℤ) : ℚ) ≤ (roundHalfEven (x / 2 ^ (binade x - 52)) : ℚ) := by
      exact_mod_cast h1
    norm_num at this ⊢
    exact this
  have q2 : (roundHalfEven (x / 2 ^ (binade x - 52)) : ℚ) ≤ (2 : ℚ) ^ (53 : ℤ) := by
    have : (roundHalfEven (x / 2 ^ (binade x - 52)) : ℚ) ≤ ((2 ^ 53 : ℤ) : ℚ) := by
      exact_mod_cast h2
    norm_num at this ⊢
    exact this
  constructor
  · calc (2 : ℚ) ^ binade x = 2 ^ (52 : ℤ) * 2 ^ (binade x - 52) := by
          rw [← zpow_add₀ (by norm_num)]; congr 1; ring
      _ ≤ binary64 x := by rw [binary64]; gcongr
  · calc binary64 x ≤ 2 ^ (53 : ℤ) * 2 ^ (binade x - 52) := by rw [binary64]; gcongr
      _ = (2 : ℚ) ^ (binade x + 1) := by
          rw [← zpow_add₀ (by norm_num)]; congr 1; ring

theorem binade_mono {x y : ℚ} (hx : 0 < x) (h : x ≤ y) : binade x ≤ binade y := by
  rw [binade, binade, floorLog2_eq, floorLog2_eq, abs_of_pos hx, abs_of_pos (lt_of_lt_of_le hx h)]
  exact Int.log_mono_right hx h

theorem binary64_mono_pos {x y : ℚ} (hx : 0 < x) (h : x ≤ y) : binary64 x ≤ binary64 y := by
  have hy : 0 < y := lt_of_lt_of_le hx h
  rcases lt_or_eq_of_le (binade_mono hx h) with hlt | heq
  · calc binary64 x ≤ (2 : ℚ) ^ (binade x + 1) := (binary64_pos_bounds x hx).2
      _ ≤ (2 : ℚ) ^ binade y := zpow_le_zpow_right₀ (by norm_num) (by omega)
      _ ≤ binary64 y := (binary64_pos_bounds y hy).1
  · rw [binary64, binary64, heq]
    have hu : (0 : ℚ) < 2 ^ (binade y - 52) := by positivity
    have hq : x / 2 ^ (binade y - 52) ≤ y / 2 ^ (binade y - 52) := by gcongr
    have := roundHalfEven_mono hq
    have hc : (roundHalfEven (x / 2 ^ (binade y - 52)) : ℚ)
        ≤ (roundHalfEven (y / 2 ^ (binade y - 52)) : ℚ) := by exact_mod_cast this
    gcongr

theorem binary64_nonneg {x : ℚ} (hx : 0 ≤ x) : 0 ≤ binary64 x := by
  rcases lt_or_eq_of_le hx with h | h
  · exact le_trans (by positivity) (binary64_pos_bounds x h).1
  · rw [← h, binary64_zero]

theorem binary64_mono : Monotone binary64 := by
  intro x y h
  rcases lt_trichotomy x 0 with hx | hx | hx
  · rcases lt_or_le y 0 with hy | hy
    · have := binary64_mono_pos (x := -y) (y := -x) (by linarith) (by linarith)
      rw [binary64_neg, binary64_neg] at this
      linarith
    · have h1 := binary64_nonneg (x := -x) (by linarith)
      rw [binary64_neg] at h1
      have h2 := binary64_nonneg hy
      linarith
  · subst hx; rw [binary64_zero]; exact binary64_nonneg h
  · exact binary64_mono_pos hx h

/-- Halving commutes with rounding: the exponent range is unbounded. -/
theorem binary64_half (x : ℚ) : binary64 (x / 2) = binary64 x / 2 := by
  by_cases hx : x = 0
  · subst hx; simp [binary64_zero]
  · have h1 := binade_le x hx
    have h2 := lt_binade x
    have hb : binade (x / 2) = binade x - 1 := by
      apply binade_unique
      · rw [abs_div, abs_of_pos (by norm_num : (0 : ℚ) < 2), zpow_sub_one₀ (by norm_num)]
        rw [div_eq_mul_inv]; gcongr
      · rw [abs_div, abs_of_pos (by norm_num : (0 : ℚ) < 2), sub_add_cancel,
          div_lt_iff₀ (by norm_num)]
        calc |x| < (2 : ℚ) ^ (binade x + 1) := h2
          _ = 2 ^ binade x * 2 := by rw [zpow_add_one₀ (by norm_num)]
    have hu : (2 : ℚ) ^ (binade x - 1 - 52) = 2 ^ (binade x - 52) / 2 := by
      rw [show binade x - 1 - 52 = (binade x - 52) - 1 by ring, zpow_sub_one₀ (by norm_num)]
      rw [div_eq_mul_inv]
    have hpos : (0 : ℚ) < 2 ^ (binade x - 52) := by positivity
    rw [binary64, hb, hu, binary64]
    have hq : x / 2 / (2 ^ (binade x - 52) / 2) = x / 2 ^ (binade x - 52) := by
      field_simp
    rw [hq]; ring

/-- The relative error of rounding is at most `2 ^ -53`. -/
theorem binary64_error (x : ℚ) : |binary64 x - x| ≤ 1 / 2 ^ 53 * |x| := by
  by_cases hx : x = 0
  · subst hx; simp [binary64_zero]
  · have h1 := binade_le x hx
    have hpos : (0 : ℚ) < 2 ^ (binade x - 52) := by positivity
    obtain ⟨k1, _⟩ := roundHalfEven_spec (x / 2 ^ (binade x - 52))
    have e : binary64 x - x
        = ((roundHalfEven (x / 2 ^ (binade x - 52)) : ℚ) - x / 2 ^ (binade x - 52))
            * 2 ^ (binade x - 52) := by
      rw [binary64]; field_simp
    rw [e, abs_mul, abs_of_pos hpos]
    calc |(roundHalfEven (x / 2 ^ (binade x - 52)) : ℚ) - x / 2 ^ (binade x - 52)|
            * 2 ^ (binade x - 52)
          ≤ 1 / 2 * 2 ^ (binade x - 52) := by gcongr
      _ = 1 / 2 ^ 53 * 2 ^ binade x := by
          rw [zpow_sub₀ (by norm_num)]; norm_num; ring
      _ ≤ 1 / 2 ^ 53 * |x| := by gcongr

/-! ## The tagged union and the polymorphic records -/

theorem take_store {M N : ℕ} (dst : StdArray M) (src : StdArray N) (h : N ≤ M) :
    (store dst src h).1.take N = src.1 := by
  obtain ⟨l, rfl⟩ := src
  simp only [store, List.take_left]

theorem accumulate_eq_foldl (env : Env) (l : List Double) (init : Double) :
    accumulate env l init = l.foldl (fun acc x => env.rnd (acc + x)) init := rfl

theorem count_ofType0 (env : Env) (raw : StdArray sizeofValue) (r : ValueType0) (pos : ℕ) :
    (TaggedUnion.ofType0 env raw r pos).1.count env = accumulate env r.data.1 0 := by
  simp only [TaggedUnion.ofType0, TaggedUnion.count, Tag.type0, Value.t0, Value.assignT0, slots,
    take_store]

theorem count_ofType1 (env : Env) (raw : StdArray sizeofValue) (r : ValueType1) (pos : ℕ) :
    (TaggedUnion.ofType1 env raw r pos).1.count env = accumulate env r.data.1 0 := by
  simp only [TaggedUnion.ofType1, TaggedUnion.count, Tag.type1, Value.t1, Value.assignT1, slots,
    take_store]

theorem count_ofType2 (env : Env) (raw : StdArray sizeofValue) (r : ValueType2) (pos : ℕ) :
    (TaggedUnion.ofType2 env raw r pos).1.count env = accumulate env r.data.1 0 := by
  simp only [TaggedUnion.ofType2, TaggedUnion.count, Tag.type2, Value.t2, Value.assignT2, slots,
    take_store]

theorem count_derived {N : ℕ} (env : Env) (r : ValueDerived N) :
    accumulate env (r.getData.1.take r.getData.2) 0 = accumulate env r.data.1 0 := by
  obtain ⟨⟨l, rfl⟩⟩ := r
  simp only [ValueDerived.getData, List.take_length]

theorem memcpy_full (dst src : List Double) (n : ℕ) (hd : dst.length = n) (hs : src.length = n) :
    memcpy dst src n = src := by
  rw [memcpy, ← hs, List.take_length, hs, ← hd, List.drop_length, List.append_nil]

theorem copy_eq (raw : StdArray sizeofValue) (u : TaggedUnion) : TaggedUnion.copy raw u = u := by
  obtain ⟨⟨⟨m, hm⟩⟩, t⟩ := u
  simp only [TaggedUnion.copy, Value.copy, memcpy_full raw.1 m sizeofValue raw.2 hm]

/-- C1: a tagged union built from a record of shape k carries the discriminant
of shape k, and its `count` is the in-order sum, from 0, of exactly the values
of that record: neither the previous contents `raw` of the storage nor the
values that the default construction of the storage drew from the random
stream appear in the result. -/
theorem C1_union_count_dispatch (env : Env) (raw : StdArray sizeofValue) (pos : ℕ)
    (r0 : ValueType0) (r1 : ValueType1) (r2 : ValueType2) :
    ((TaggedUnion.ofType0 env raw r0 pos).1.tag = Tag.type0 ∧
      (TaggedUnion.ofType0 env raw r0 pos).1.count env
        = r0.data.1.foldl (fun acc x => env.rnd (acc + x)) 0 ∧ r0.data.1.length = 81) ∧
    ((TaggedUnion.ofType1 env raw r1 pos).1.tag = Tag.type1 ∧
      (TaggedUnion.ofType1 env raw r1 pos).1.count env
        = r1.data.1.foldl (fun acc x => env.rnd (acc + x)) 0 ∧ r1.data.1.length = 162) ∧
    ((TaggedUnion.ofType2 env raw r2 pos).1.tag = Tag.type2 ∧
      (TaggedUnion.ofType2 env raw r2 pos).1.count env
        = r2.data.1.foldl (fun acc x => env.rnd (acc + x)) 0 ∧ r2.data.1.length = 243) :=
  ⟨⟨rfl, count_ofType0 env raw r0 pos, r0.data.2⟩,
   ⟨rfl, count_ofType1 env raw r1 pos, r1.data.2⟩,
   ⟨rfl, count_ofType2 env raw r2 pos, r2.data.2⟩⟩

/-- C2: a copy of a tagged union built by any of the three converting
constructors has the same discriminant and the same contents in every slot of
the storage as the original, whatever the destination held before, and so the
same `count`. -/
theorem C2_copy_preserves (env : Env) (raw dst : StdArray sizeofValue) (pos : ℕ)
    (r0 : ValueType0) (r1 : ValueType1) (r2 : ValueType2) :
    ((TaggedUnion.copy dst (TaggedUnion.ofType0 env raw r0 pos).1).tag = Tag.type0 ∧
      (TaggedUnion.copy dst (TaggedUnion.ofType0 env raw r0 pos).1).value.mem.1
        = (TaggedUnion.ofType0 env raw r0 pos).1.value.mem.1 ∧
      (TaggedUnion.ofType0 env raw r0 pos).1.value.mem.1.length = 243 ∧
      (TaggedUnion.copy dst (TaggedUnion.ofType0 env raw r0 pos).1).count env
        = (TaggedUnion.ofType0 env raw r0 pos).1.count env) ∧
    ((TaggedUnion.copy dst (TaggedUnion.ofType1 env raw r1 pos).1).tag = Tag.type1 ∧
      (TaggedUnion.copy dst (TaggedUnion.ofType1 env raw r1 pos).1).value.mem.1
        = (TaggedUnion.ofType1 env raw r1 pos).1.value.mem.1 ∧
      (TaggedUnion.ofType1 env raw r1 pos).1.value.mem.1.length = 243 ∧
      (TaggedUnion.copy dst (TaggedUnion.ofType1 env raw r1 pos).1).count env
        = (TaggedUnion.ofType1 env raw r1 pos).1.count env) ∧
    ((TaggedUnion.copy dst (TaggedUnion.ofType2 env raw r2 pos).1).tag = Tag.type2 ∧
      (TaggedUnion.copy dst (TaggedUnion.ofType2 env raw r2 pos).1).value.mem.1
        = (TaggedUnion.ofType2 env raw r2 pos).1.value.mem.1 ∧
      (TaggedUnion.ofType2 env raw r2 pos).1.value.mem.1.length = 243 ∧
      (TaggedUnion.copy dst (TaggedUnion.ofType2 env raw r2 pos).1).count env
        = (TaggedUnion.ofType2 env raw r2 pos).1.count env) := by
  rw [copy_eq, copy_eq, copy_eq]
  exact ⟨⟨rfl, rfl, (TaggedUnion.ofType0 env raw r0 pos).1.value.mem.2, rfl⟩,
    ⟨rfl, rfl, (TaggedUnion.ofType1 env raw r1 pos).1.value.mem.2, rfl⟩,
    ⟨rfl, rfl, (TaggedUnion.ofType2 env raw r2 pos).1.value.mem.2, rfl⟩⟩

/-- C3: for each shape and every record of that shape, the polymorphic sum
`ValueBase::count` over the range returned by `getData` equals `count` of the
tagged union built from the same record. -/
theorem C3_poly_count_eq_union_count (env : Env) (raw : StdArray sizeofValue) (pos : ℕ)
    (r0 : ValueType0) (r1 : ValueType1) (r2 : ValueType2) :
    (ValueBase.derived0 r0).count env = (TaggedUnion.ofType0 env raw r0 pos).1.count env ∧
    (ValueBase.derived1 r1).count env = (TaggedUnion.ofType1 env raw r1 pos).1.count env ∧
    (ValueBase.derived2 r2).count env = (TaggedUnion.ofType2 env raw r2 pos).1.count env := by
  rw [count_ofType0, count_ofType1, count_ofType2]
  exact ⟨count_derived env r0, count_derived env r1, count_derived env r2⟩

/-! ## Sums of constant buffers -/

theorem accumulate_replicate_succ (env : Env) (c : Double) (N : ℕ) :
    accumulate env (List.replicate (N + 1) c) 0
      = env.rnd (accumulate env (List.replicate N c) 0 + c) := by
  simp only [accumulate, List.replicate_succ', List.foldl_append, List.foldl_cons,
    List.foldl_nil, Env.add]

/-- Error of the repeated rounded addition of a constant: with a relative
rounding error of at most `u` per addition, the sum of N copies of `c` differs
from `c * N` by at most `((1 + u) ^ N - 1) * (N * |c|)`. -/
theorem accumulate_replicate_error (env : Env) (u c : ℚ) (hu : 0 ≤ u)
    (herr : ∀ x, |env.rnd x - x| ≤ u * |x|) (N : ℕ) :
    |accumulate env (List.replicate N c) 0 - c * N| ≤ ((1 + u) ^ N - 1) * (N * |c|) := by
  induction N with
  | zero => simp [accumulate]
  | succ N ih =>
    rw [accumulate_replicate_succ]
    set s := accumulate env (List.replicate N c) 0 with hs
    have hp : (0 : ℚ) ≤ (1 + u) ^ N - 1 := by
      have : (1 : ℚ) ≤ (1 + u) ^ N := one_le_pow₀ (by linarith)
      linarith
    have hc : 0 ≤ |c| := abs_nonneg c
    have hN : (0 : ℚ) ≤ N := Nat.cast_nonneg N
    have e1 := herr (s + c)
    have e2 : |s + c| ≤ |s - c * N| + (N + 1) * |c| := by
      have h3 : s + c = (s - c * N) + (N + 1) * c := by ring
      calc |s + c| = |(s - c * N) + (N + 1) * c| := by rw [← h3]
        _ ≤ |s - c * N| + |(N + 1) * c| := abs_add _ _
        _ = |s - c * N| + (N + 1) * |c| := by
            rw [abs_mul, abs_of_nonneg (by linarith : (0 : ℚ) ≤ N + 1)]
    have e3 : |env.rnd (s + c) - c * ((N + 1 : ℕ) : ℚ)|
        ≤ |env.rnd (s + c) - (s + c)| + |s - c * N| := by
      have h4 : env.rnd (s + c) - c * ((N + 1 : ℕ) : ℚ)
          = (env.rnd (s + c) - (s + c)) + (s - c * N) := by push_cast; ring
      rw [h4]; exact abs_add _ _
    have e4 : u * |s + c| ≤ u * (|s - c * N| + (N + 1) * |c|) :=
      mul_le_mul_of_nonneg_left e2 hu
    have e5 : (1 + u) * |s - c * N| ≤ (1 + u) * (((1 + u) ^ N - 1) * (N * |c|)) :=
      mul_le_mul_of_nonneg_left ih (by linarith)
    have e6 : ((1 + u) ^ N - 1) * (N * |c|) ≤ ((1 + u) ^ N - 1) * ((N + 1) * |c|) := by
      apply mul_le_mul_of_nonneg_left _ hp
      nlinarith
    have e7 : ((1 + u) ^ (N + 1) - 1) * (((N + 1 : ℕ) : ℚ) * |c|)
        = (1 + u) * (((1 + u) ^ N - 1) * ((N + 1) * |c|)) + u * ((N + 1) * |c|) := by
      push_cast; ring
    rw [e7]
    have e8 : (1 + u) * (((1 + u) ^ N - 1) * (N * |c|))
        ≤ (1 + u) * (((1 + u) ^ N - 1) * ((N + 1) * |c|)) :=
      mul_le_mul_of_nonneg_left e6 (by linarith)
    nlinarith

theorem count_constRecord0 (env : Env) (c : Double) :
    (ValueBase.derived0 (constRecord struct1 c)).count env
      = accumulate env (List.replicate 81 c) 0 := count_derived env _

theorem count_constRecord1 (env : Env) (c : Double) :
    (ValueBase.derived1 (constRecord struct2 c)).count env
      = accumulate env (List.replicate 162 c) 0 := count_derived env _

theorem count_constRecord2 (env : Env) (c : Double) :
    (ValueBase.derived2 (constRecord struct3 c)).count env
      = accumulate env (List.replicate 243 c) 0 := count_derived env _

theorem count_const_bound (env : Env) (u c : ℚ) (hu : 0 ≤ u)
    (herr : ∀ x, |env.rnd x - x| ≤ u * |x|) (N : ℕ) :
    |accumulate env (List.replicate N c) 0 - c * N| ≤ ((1 + u) ^ N - 1) * (N * |c|) ∧
    accumulate env (List.replicate N 0) 0 = 0 ∧
    (u = 0 → accumulate env (List.replicate N c) 0 = c * N) := by
  refine ⟨accumulate_replicate_error env u c hu herr N, ?_, ?_⟩
  · have h := accumulate_replicate_error env u 0 hu herr N
    simp only [abs_zero, mul_zero, zero_mul, sub_zero] at h
    exact abs_nonpos_iff.1 h
  · intro h0
    have h := accumulate_replicate_error env u c hu herr N
    rw [h0] at h
    simp only [add_zero, one_pow, sub_self, zero_mul] at h
    exact sub_eq_zero.1 (abs_nonpos_iff.1 h)

/-- C4 (as stated, refuted): in binary64 arithmetic the sum of a `ValueType0`
record holding the `double` nearest to 0.1 in all 81 slots is
8.099999999999987..., through both `count` functions, which is neither the
exact product of the constant and 81 nor the product rounded to `double`
(8.1). -/
theorem C4_tenth_sum_is_not_product :
    (ValueBase.derived0 (constRecord struct1 (binary64 (1 / 10)))).count sampleEnv
      = 1139973655678155 / 140737488355328 ∧
    (TaggedUnion.ofType0 sampleEnv (sampleEnv.uninit sizeofValue)
        (constRecord struct1 (binary64 (1 / 10))) 0).1.count sampleEnv
      = 1139973655678155 / 140737488355328 ∧
    (1139973655678155 / 140737488355328 : ℚ) ≠ binary64 (1 / 10) * 81 ∧
    (1139973655678155 / 140737488355328 : ℚ) ≠ sampleEnv.mul (binary64 (1 / 10)) 81 := by
  refine ⟨by decide!, by decide!, by decide!, by decide!⟩

/-- C4 (amended): for each of the three shapes (N = 81, 162, 243) and every
constant c, the sum of a record holding c in every slot is the same through
`ValueBase::count` and through `TaggedUnion::count` and equals c times N
within floating-point tolerance: when every addition has a relative rounding
error of at most u, the sum differs from c * N by at most
`((1 + u) ^ N - 1) * N * |c|`; it is exactly c * N when u = 0, and the sum of
an all-zero buffer is exactly 0. -/
theorem C4_constant_buffer_sum (env : Env) (raw : StdArray sizeofValue) (pos : ℕ) (u c : ℚ)
    (hu : 0 ≤ u) (herr : ∀ x, |env.rnd x - x| ≤ u * |x|) :
    (|(ValueBase.derived0 (constRecord struct1 c)).count env - c * 81|
        ≤ ((1 + u) ^ 81 - 1) * (81 * |c|) ∧
      (TaggedUnion.ofType0 env raw (constRecord struct1 c) pos).1.count env
        = (ValueBase.derived0 (constRecord struct1 c)).count env ∧
      (ValueBase.derived0 (constRecord struct1 0)).count env = 0 ∧
      (u = 0 → (ValueBase.derived0 (constRecord struct1 c)).count env = c * 81)) ∧
    (|(ValueBase.derived1 (constRecord struct2 c)).count env - c * 162|
        ≤ ((1 + u) ^ 162 - 1) * (162 * |c|) ∧
      (TaggedUnion.ofType1 env raw (constRecord struct2 c) pos).1.count env
        = (ValueBase.derived1 (constRecord struct2 c)).count env ∧
      (ValueBase.derived1 (constRecord struct2 0)).count env = 0 ∧
      (u = 0 → (ValueBase.derived1 (constRecord struct2 c)).count env = c * 162)) ∧
    (|(ValueBase.derived2 (constRecord struct3 c)).count env - c * 243|
        ≤ ((1 + u) ^ 243 - 1) * (243 * |c|) ∧
      (TaggedUnion.ofType2 env raw (constRecord struct3 c) pos).1.count env
        = (ValueBase.derived2 (constRecord struct3 c)).count env ∧
      (ValueBase.derived2 (constRecord struct3 0)).count env = 0 ∧
      (u = 0 → (ValueBase.derived2 (constRecord struct3 c)).count env = c * 243)) := by
  obtain ⟨a0, b0, c0⟩ := count_const_bound env u c hu herr 81
  obtain ⟨a1, b1, c1⟩ := count_const_bound env u c hu herr 162
  obtain ⟨a2, b2, c2⟩ := count_const_bound env u c hu herr 243
  refine ⟨⟨?_, ?_, ?_, ?_⟩, ⟨?_, ?_, ?_, ?_⟩, ⟨?_, ?_, ?_, ?_⟩⟩
  · rw [count_constRecord0]; exact_mod_cast a0
  · rw [count_ofType0]; exact (count_derived env _).symm
  · rw [count_constRecord0]; exact b0
  · intro h; rw [count_constRecord0]; exact_mod_cast c0 h
  · rw [count_constRecord1]; exact_mod_cast a1
  · rw [count_ofType1]; exact (count_derived env _).symm
  · rw [count_constRecord1]; exact b1
  · intro h; rw [count_constRecord1]; exact_mod_cast c1 h
  · rw [count_constRecord2]; exact_mod_cast a2
  · rw [count_ofType2]; exact (count_derived env _).symm
  · rw [count_constRecord2]; exact b2
  · intro h; rw [count_constRecord2]; exact_mod_cast c2 h

/-- The bound of C4 on the binary64 platform, for the constant 0.1 and `u = 2 ^ -53`. -/
theorem C4_constant_buffer_sum_witness :
    |(ValueBase.derived0 (constRecord struct1 (binary64 (1 / 10)))).count sampleEnv
        - binary64 (1 / 10) * 81|
      ≤ ((1 + 1 / 2 ^ 53) ^ 81 - 1) * (81 * |binary64 (1 / 10)|) :=
  (C4_constant_buffer_sum sampleEnv (sampleEnv.uninit sizeofValue) 0 (1 / 2 ^ 53)
    (binary64 (1 / 10)) (by norm_num) binary64_error).1.1

/-! ## The record generator -/

theorem fillLoop_spec (env : Env) (l : List Double) (pos : ℕ) :
    fillLoop env l pos =
      ((List.range l.length).map
          (fun i => env.div (env.ofInt (env.rng (pos + i))) (env.ofInt env.RAND_MAX)),
        pos + l.length) := by
  induction l generalizing pos with
  | nil => simp [fillLoop]
  | cons _ rest ih =>
    simp only [fillLoop, ih, List.length_cons, List.range_succ_eq_map, List.map_cons,
      List.map_map, Nat.add_zero]
    refine Prod.ext ?_ (by simp; omega)
    simp only [List.cons.injEq, true_and]
    apply List.map_congr_left
    intro i _
    simp only [Function.comp, Nat.succ_eq_add_one]
    rw [show pos + 1 + i = pos + (i + 1) by omega]

theorem fillData_data (env : Env) {N : ℕ} (data : StdArray N) (pos : ℕ) :
    (fillData env data pos).1.1 =
      (List.range N).map
        (fun i => env.div (env.ofInt (env.rng (pos + i))) (env.ofInt env.RAND_MAX)) := by
  simp only [fillData, fillLoop_spec, data.2]

theorem fillData_pos (env : Env) {N : ℕ} (data : StdArray N) (pos : ℕ) :
    (fillData env data pos).2 = pos + N := by
  simp only [fillData, fillLoop_spec, data.2]

/-- A generated value lies in the closed unit interval. -/
theorem draw_mem_unit (env : Env) (hmono : Monotone env.rnd) (h0 : env.rnd 0 = 0)
    (h1 : env.rnd 1 = 1) (hM : 0 < env.RAND_MAX) (r : ℕ) (hr : r ≤ env.RAND_MAX) :
    0 ≤ env.div (env.ofInt r) (env.ofInt env.RAND_MAX) ∧
      env.div (env.ofInt r) (env.ofInt env.RAND_MAX) ≤ 1 := by
  simp only [Env.div, Env.ofInt, Int.cast_natCast]
  have hr0 : 0 ≤ env.rnd (r : ℚ) := by
    have := hmono (show (0 : ℚ) ≤ (r : ℚ) from Nat.cast_nonneg r)
    rwa [h0] at this
  have hM1 : 1 ≤ env.rnd (env.RAND_MAX : ℚ) := by
    have := hmono (show (1 : ℚ) ≤ (env.RAND_MAX : ℚ) from by exact_mod_cast hM)
    rwa [h1] at this
  have hrM : env.rnd (r : ℚ) ≤ env.rnd (env.RAND_MAX : ℚ) :=
    hmono (by exact_mod_cast hr)
  have hq0 : 0 ≤ env.rnd (r : ℚ) / env.rnd (env.RAND_MAX : ℚ) :=
    div_nonneg hr0 (by linarith)
  have hq1 : env.rnd (r : ℚ) / env.rnd (env.RAND_MAX : ℚ) ≤ 1 :=
    div_le_one_of_le₀ hrM (by linarith)
  constructor
  · have := hmono hq0
    rwa [h0] at this
  · have := hmono hq1
    rwa [h1] at this

/-- C5 (as stated, refuted): on the binary64 platform, when `rand()` returns
`RAND_MAX` for the first slot, `fillData` writes the value 1 there, which is
outside the half-open interval [0, 1). -/
theorem C5_fillData_reaches_one :
    (∀ i, (ieeeEnv (fun i => if i = 0 then 2147483647 else 0) (fun _ => 0)).rng i
        ≤ (ieeeEnv (fun i => if i = 0 then 2147483647 else 0) (fun _ => 0)).RAND_MAX) ∧
    ¬ (∀ v ∈ (fillData (ieeeEnv (fun i => if i = 0 then 2147483647 else 0) (fun _ => 0))
          ((ieeeEnv (fun i => if i = 0 then 2147483647 else 0) (fun _ => 0)).uninit struct1)
          0).1.1, 0 ≤ v ∧ v < 1) := by
  refine ⟨fun i => ?_, by decide!⟩
  simp only [ieeeEnv]
  split_ifs <;> omega

/-- C5 (amended): for every buffer length N and every random stream with
entries between 0 and `RAND_MAX`, `fillData` overwrites each of the N slots,
slot i with `rand() / (double) RAND_MAX` for entry i of the stream behind the
cursor, advances the cursor by exactly N, and every value written lies in the
closed interval [0, 1]. -/
theorem C5_fillData_closed_unit (env : Env) {N : ℕ} (data : StdArray N) (pos : ℕ)
    (hmono : Monotone env.rnd) (h0 : env.rnd 0 = 0) (h1 : env.rnd 1 = 1)
    (hM : 0 < env.RAND_MAX) (hr : ∀ i, env.rng i ≤ env.RAND_MAX) :
    (fillData env data pos).2 = pos + N ∧
    (fillData env data pos).1.1 =
      (List.range N).map
        (fun i => env.div (env.ofInt (env.rng (pos + i))) (env.ofInt env.RAND_MAX)) ∧
    ∀ v ∈ (fillData env data pos).1.1, 0 ≤ v ∧ v ≤ 1 := by
  refine ⟨fillData_pos env data pos, fillData_data env data pos, ?_⟩
  intro v hv
  rw [fillData_data, List.mem_map] at hv
  obtain ⟨i, _, rfl⟩ := hv
  exact draw_mem_unit env hmono h0 h1 hM _ (hr _)

/-- The statement of C5 on the sample platform, for a buffer of 81 slots. -/
theorem C5_fillData_closed_unit_witness :
    (fillData sampleEnv (sampleEnv.uninit struct1) 0).2 = 0 + struct1 ∧
    (fillData sampleEnv (sampleEnv.uninit struct1) 0).1.1 =
      (List.range struct1).map
        (fun i => sampleEnv.div (sampleEnv.ofInt (sampleEnv.rng (0 + i)))
          (sampleEnv.ofInt sampleEnv.RAND_MAX)) ∧
    ∀ v ∈ (fillData sampleEnv (sampleEnv.uninit struct1) 0).1.1, 0 ≤ v ∧ v ≤ 1 :=
  C5_fillData_closed_unit sampleEnv (sampleEnv.uninit struct1) 0
    binary64_mono binary64_zero (by decide!) (by decide) (by
      intro i
      simp only [sampleEnv, ieeeEnv]
      omega)

/-! ## The population phase -/

theorem populateLoop_succ (env : Env) (n : ℕ) (s : Population) :
    populateLoop env (n + 1) s = populateStep env (populateLoop env n s) := by
  induction n generalizing s with
  | zero => rfl
  | succ n ih => rw [populateLoop, ih]; rfl

theorem populate_succ (env : Env) (n : ℕ) :
    populate env (n + 1) = populateStep env (populate env n) :=
  populateLoop_succ env n _

theorem pushUnion_tags (env : Env) (l : List TaggedUnion) (u : TaggedUnion) :
    (pushUnion env l u).map (·.tag) = l.map (·.tag) ++ [u.tag] := by
  simp [pushUnion, copy_eq]

theorem populateStep_shapes (env : Env) (s : Population) :
    (populateStep env s).ptrVec.map ValueBase.typeIndex
        = s.ptrVec.map ValueBase.typeIndex ++ [env.rng s.pos % 3] ∧
    (populateStep env s).ptrVec.map (fun b => b.getData.2)
        = s.ptrVec.map (fun b => b.getData.2)
            ++ [[struct1, struct2, struct3].getD (env.rng s.pos % 3) 0] ∧
    (populateStep env s).unionVec.map (·.tag)
        = s.unionVec.map (·.tag) ++ [env.rng s.pos % 3] := by
  have h3 : env.rng s.pos % 3 < 3 := Nat.mod_lt _ (by norm_num)
  obtain h | h | h : env.rng s.pos % 3 = 0 ∨ env.rng s.pos % 3 = 1 ∨ env.rng s.pos % 3 = 2 := by
    omega
  all_goals
    simp only [populateStep, populateSwitch, h]
    split_ifs <;>
      simp [pushUnion_tags, ValueBase.typeIndex, TaggedUnion.ofType0, TaggedUnion.ofType1,
        TaggedUnion.ofType2, Tag.type0, Tag.type1, Tag.type2, ValueBase.getData,
        ValueDerived.getData]

theorem populate_shapes (env : Env) (n : ℕ) :
    (populate env n).ptrVec.map ValueBase.typeIndex
        = (List.range n).map (fun i => env.rng (populate env i).pos % 3) ∧
    (populate env n).ptrVec.map (fun b => b.getData.2)
        = (List.range n).map
            (fun i => [struct1, struct2, struct3].getD (env.rng (populate env i).pos % 3) 0) ∧
    (populate env n).unionVec.map (·.tag)
        = (List.range n).map (fun i => env.rng (populate env i).pos % 3) := by
  induction n with
  | zero => simp [populate, populateLoop]
  | succ n ih =>
    obtain ⟨h1, h2, h3⟩ := populateStep_shapes env (populate env n)
    rw [populate_succ, List.range_succ, List.map_append, List.map_append, h1, h2, h3,
      ih.1, ih.2.1, ih.2.2]
    simp

/-- C6: after the population phase for a target count n, the vector of
pointers and the vector of tagged unions hold n elements each; position by
position, the dynamic type (and buffer length) of the polymorphic record and
the discriminant of the tagged union are the shape chosen by the shape
selector `rand() % 3` drawn at the start of that iteration.  When the first
three selectors are 0, 1, 2 and n = 3, each vector holds one record of each
shape, in that order. -/
theorem C6_population_shapes (env : Env) (n : ℕ) :
    (populate env n).ptrVec.length = n ∧ (populate env n).unionVec.length = n ∧
    (populate env n).ptrVec.map ValueBase.typeIndex
        = (List.range n).map (fun i => env.rng (populate env i).pos % 3) ∧
    (populate env n).unionVec.map (·.tag)
        = (List.range n).map (fun i => env.rng (populate env i).pos % 3) ∧
    (populate env n).ptrVec.map (fun b => b.getData.2)
        = (List.range n).map
            (fun i => [81, 162, 243].getD (env.rng (populate env i).pos % 3) 0) ∧
    (env.rng (populate env 0).pos % 3 = 0 → env.rng (populate env 1).pos % 3 = 1 →
      env.rng (populate env 2).pos % 3 = 2 →
      (populate env 3).ptrVec.map ValueBase.typeIndex = [0, 1, 2] ∧
      (populate env 3).ptrVec.map (fun b => b.getData.2) = [81, 162, 243] ∧
      (populate env 3).unionVec.map (·.tag) = [Tag.type0, Tag.type1, Tag.type2]) := by
  obtain ⟨h1, h2, h3⟩ := populate_shapes env n
  refine ⟨?_, ?_, h1, h3, h2, ?_⟩
  · have := congrArg List.length h1
    simpa using this
  · have := congrArg List.length h3
    simpa using this
  · intro s0 s1 s2
    obtain ⟨k1, k2, k3⟩ := populate_shapes env 3
    rw [k1, k2, k3]
    simp [List.range_succ, s0, s1, s2, Tag.type0, Tag.type1, Tag.type2, struct1, struct2, struct3]

/-- The scenario of C6 on the sample platform, whose first three shape selectors
are 0, 1 and 2. -/
theorem C6_population_shapes_witness :
    (populate sampleEnv 3).ptrVec.map ValueBase.typeIndex = [0, 1, 2] ∧
    (populate sampleEnv 3).ptrVec.map (fun b => b.getData.2) = [81, 162, 243] ∧
    (populate sampleEnv 3).unionVec.map (·.tag) = [Tag.type0, Tag.type1, Tag.type2] :=
  (C6_population_shapes sampleEnv 3).2.2.2.2.2 (by decide!) (by decide!) (by decide!)

/-! ## The timed phase -/

theorem ptrTrials_succ (env : Env) (R : ℕ) (s : Timed) :
    ptrTrials env (R + 1) s = ptrTrial env (ptrTrials env R s) R := by
  simp [ptrTrials, List.range_succ, List.foldl_append]

theorem unionTrials_succ (env : Env) (R : ℕ) (s : Timed) :
    unionTrials env (R + 1) s = unionTrial env (unionTrials env R s) R := by
  simp [unionTrials, List.range_succ, List.foldl_append]

/-- What the pointer trials leave unchanged, and the clock readings they take. -/
theorem ptrTrials_frame (env : Env) (R : ℕ) (s : Timed) :
    (ptrTrials env R s).ptrVec = s.ptrVec ∧
    (ptrTrials env R s).heapFragmenter = s.heapFragmenter ∧
    (ptrTrials env R s).unionVec = s.unionVec ∧
    (ptrTrials env R s).unionThrowawayResult = s.unionThrowawayResult ∧
    (ptrTrials env R s).unionTimeUs = s.unionTimeUs ∧
    (ptrTrials env R s).now = s.now + 2 * R := by
  induction R with
  | zero => simp [ptrTrials]
  | succ R ih =>
    rw [ptrTrials_succ]
    obtain ⟨h1, h2, h3, h4, h5, h6⟩ := ih
    refine ⟨h1, h2, h3, h4, h5, ?_⟩
    show (ptrTrials env R s).now + 2 = _
    omega

theorem unionTrials_frame (env : Env) (R : ℕ) (s : Timed) :
    (unionTrials env R s).ptrVec = s.ptrVec ∧
    (unionTrials env R s).heapFragmenter = s.heapFragmenter ∧
    (unionTrials env R s).unionVec = s.unionVec ∧
    (unionTrials env R s).ptrThrowawayResult = s.ptrThrowawayResult ∧
    (unionTrials env R s).ptrTimeUs = s.ptrTimeUs ∧
    (unionTrials env R s).now = s.now + 2 * R := by
  induction R with
  | zero => simp [unionTrials]
  | succ R ih =>
    rw [unionTrials_succ]
    obtain ⟨h1, h2, h3, h4, h5, h6⟩ := ih
    refine ⟨h1, h2, h3, h4, h5, ?_⟩
    show (unionTrials env R s).now + 2 = _
    omega

/-- The accumulator of the pointer trials after one more trial. -/
theorem ptrTrials_result_succ (env : Env) (R : ℕ) (s : Timed) :
    (ptrTrials env (R + 1) s).ptrThrowawayResult
      = ptrPass env s.ptrVec (ptrTrials env R s).ptrThrowawayResult := by
  rw [ptrTrials_succ]
  show ptrPass env (ptrTrials env R s).ptrVec _ = _
  rw [(ptrTrials_frame env R s).1]

theorem unionTrials_result_succ (env : Env) (R : ℕ) (s : Timed) :
    (unionTrials env (R + 1) s).unionThrowawayResult
      = unionPass env s.unionVec (unionTrials env R s).unionThrowawayResult := by
  rw [unionTrials_succ]
  show unionPass env (unionTrials env R s).unionVec _ = _
  rw [(unionTrials_frame env R s).2.2.1]

/-- The smoothed time of the pointer trials after one more trial. -/
theorem ptrTrials_time_succ (env : Env) (R : ℕ) (s : Timed) :
    (ptrTrials env (R + 1) s).ptrTimeUs
      = if R = 0 then env.elapsed s.now
        else env.mul (env.add (ptrTrials env R s).ptrTimeUs (env.elapsed (s.now + 2 * R))) half := by
  rw [ptrTrials_succ]
  show (if R = 0 then _ else _) = _
  rw [(ptrTrials_frame env R s).2.2.2.2.2]
  split_ifs with h
  · subst h; rfl
  · rfl

theorem unionTrials_time_succ (env : Env) (R : ℕ) (s : Timed) :
    (unionTrials env (R + 1) s).unionTimeUs
      = if R = 0 then env.elapsed s.now
        else env.mul (env.add (unionTrials env R s).unionTimeUs (env.elapsed (s.now + 2 * R)))
          half := by
  rw [unionTrials_succ]
  show (if R = 0 then _ else _) = _
  rw [(unionTrials_frame env R s).2.2.2.2.2]
  split_ifs with h
  · subst h; rfl
  · rfl

theorem mul_half_eq_div (env : Env) (y : Double) : env.mul y half = env.div y 2 := by
  simp only [Env.mul, Env.div, half, mul_one_div]

/-- Five steps of smoothing, when halving commutes with rounding: the result is
the weighted sum, evaluated from left to right. -/
theorem smooth_five (env : Env) (hhalf : ∀ x, env.rnd (x / 2) = env.rnd x / 2)
    (hidem : ∀ x, env.rnd (env.rnd x) = env.rnd x) (e0 e1 e2 e3 e4 : Double)
    (r0 : env.rnd e0 = e0) (r1 : env.rnd e1 = e1) (r2 : env.rnd e2 = e2)
    (r3 : env.rnd e3 = e3) (r4 : env.rnd e4 = e4) :
    env.mul (env.add (env.mul (env.add (env.mul (env.add (env.mul (env.add e0 e1) half) e2) half)
        e3) half) e4) half
      = env.add (env.add (env.add (env.add (env.div e0 16) (env.div e1 16)) (env.div e2 8))
          (env.div e3 4)) (env.div e4 2) := by
  have H : ∀ (k : ℕ) (x : ℚ), env.rnd (x / 2 ^ k) = env.rnd x / 2 ^ k := by
    intro k
    induction k with
    | zero => intro x; simp
    | succ k ih =>
      intro x
      rw [pow_succ, ← div_div, hhalf, ih, div_div]
  have M : ∀ y, env.mul (env.rnd y) half = env.rnd y / 2 := by
    intro y
    rw [mul_half_eq_div, Env.div, hhalf, hidem]
  have d0 : env.rnd (e0 / 16) = e0 / 16 := by
    rw [show (16 : ℚ) = 2 ^ 4 by norm_num, H, r0]
  have d1 : env.rnd (e1 / 16) = e1 / 16 := by
    rw [show (16 : ℚ) = 2 ^ 4 by norm_num, H, r1]
  have d2 : env.rnd (e2 / 8) = e2 / 8 := by
    rw [show (8 : ℚ) = 2 ^ 3 by norm_num, H, r2]
  have d3 : env.rnd (e3 / 4) = e3 / 4 := by
    rw [show (4 : ℚ) = 2 ^ 2 by norm_num, H, r3]
  have d4 : env.rnd (e4 / 2) = e4 / 2 := by rw [hhalf, r4]
  simp only [Env.add, Env.div]
  rw [M, M, M, M, d0, d1, d2, d3, d4]
  have a1 : e0 / 16 + e1 / 16 = (e0 + e1) / 2 ^ 4 := by ring
  rw [a1, H]
  have a2 : env.rnd (e0 + e1) / 2 ^ 4 + e2 / 8 = (env.rnd (e0 + e1) / 2 + e2) / 2 ^ 3 := by ring
  rw [a2, H]
  have a3 : env.rnd (env.rnd (e0 + e1) / 2 + e2) / 2 ^ 3 + e3 / 4
      = (env.rnd (env.rnd (e0 + e1) / 2 + e2) / 2 + e3) / 2 ^ 2 := by ring
  rw [a3, H]
  have a4 : env.rnd (env.rnd (env.rnd (e0 + e1) / 2 + e2) / 2 + e3) / 2 ^ 2 + e4 / 2
      = (env.rnd (env.rnd (env.rnd (e0 + e1) / 2 + e2) / 2 + e3) / 2 + e4) / 2 := by ring
  rw [a4, hhalf]

theorem ptrTrials_five (env : Env) (s : Timed) :
    (ptrTrials env 5 s).ptrTimeUs
      = env.mul (env.add (env.mul (env.add (env.mul (env.add (env.mul (env.add
          (env.elapsed s.now) (env.elapsed (s.now + 2))) half) (env.elapsed (s.now + 4))) half)
          (env.elapsed (s.now + 6))) half) (env.elapsed (s.now + 8))) half := by
  rw [ptrTrials_time_succ, ptrTrials_time_succ, ptrTrials_time_succ, ptrTrials_time_succ,
    ptrTrials_time_succ]
  simp

theorem unionTrials_five (env : Env) (s : Timed) :
    (unionTrials env 5 s).unionTimeUs
      = env.mul (env.add (env.mul (env.add (env.mul (env.add (env.mul (env.add
          (env.elapsed s.now) (env.elapsed (s.now + 2))) half) (env.elapsed (s.now + 4))) half)
          (env.elapsed (s.now + 6))) half) (env.elapsed (s.now + 8))) half := by
  rw [unionTrials_time_succ, unionTrials_time_succ, unionTrials_time_succ,
    unionTrials_time_succ, unionTrials_time_succ]
  simp

/-- C7: in both timing loops the smoothed time after the first trial is the
raw elapsed time of that trial, and after every later trial i it is
`(previous + e_i) / 2` in `double` arithmetic.  For five trials, on a platform
where halving commutes with rounding (binary floating point without
underflow, or exact arithmetic), the value is
`e_0/16 + e_1/16 + e_2/8 + e_3/4 + e_4/2`, evaluated from left to right. -/
theorem C7_smoothed_time (env : Env) (s : Timed)
    (hhalf : ∀ x, env.rnd (x / 2) = env.rnd x / 2)
    (hidem : ∀ x, env.rnd (env.rnd x) = env.rnd x)
    (hrep : ∀ d, env.rnd (env.micros d) = env.micros d) :
    (ptrTrials env 1 s).ptrTimeUs = env.elapsed s.now ∧
    (unionTrials env 1 s).unionTimeUs = env.elapsed s.now ∧
    (∀ i, (ptrTrials env (i + 2) s).ptrTimeUs
      = env.div (env.add (ptrTrials env (i + 1) s).ptrTimeUs (env.elapsed (s.now + 2 * (i + 1)))) 2) ∧
    (∀ i, (unionTrials env (i + 2) s).unionTimeUs
      = env.div (env.add (unionTrials env (i + 1) s).unionTimeUs
          (env.elapsed (s.now + 2 * (i + 1)))) 2) ∧
    (ptrTrials env runThroughs s).ptrTimeUs
      = env.add (env.add (env.add (env.add (env.div (env.elapsed s.now) 16)
          (env.div (env.elapsed (s.now + 2)) 16)) (env.div (env.elapsed (s.now + 4)) 8))
          (env.div (env.elapsed (s.now + 6)) 4)) (env.div (env.elapsed (s.now + 8)) 2) ∧
    (unionTrials env runThroughs s).unionTimeUs
      = env.add (env.add (env.add (env.add (env.div (env.elapsed s.now) 16)
          (env.div (env.elapsed (s.now + 2)) 16)) (env.div (env.elapsed (s.now + 4)) 8))
          (env.div (env.elapsed (s.now + 6)) 4)) (env.div (env.elapsed (s.now + 8)) 2) := by
  refine ⟨?_, ?_, ?_, ?_, ?_, ?_⟩
  · rw [ptrTrials_time_succ]; simp
  · rw [unionTrials_time_succ]; simp
  · intro i
    rw [ptrTrials_time_succ, mul_half_eq_div]; simp
  · intro i
    rw [unionTrials_time_succ, mul_half_eq_div]; simp
  · show (ptrTrials env 5 s).ptrTimeUs = _
    rw [ptrTrials_five]
    exact smooth_five env hhalf hidem _ _ _ _ _ (hrep _) (hrep _) (hrep _) (hrep _) (hrep _)
  · show (unionTrials env 5 s).unionTimeUs = _
    rw [unionTrials_five]
    exact smooth_five env hhalf hidem _ _ _ _ _ (hrep _) (hrep _) (hrep _) (hrep _) (hrep _)

/-- The closed form of C7 on the sample platform: binary64 meets the three
hypotheses. -/
theorem C7_smoothed_time_witness :
    (ptrTrials sampleEnv runThroughs (Timed.init (populate sampleEnv 0))).ptrTimeUs
      = sampleEnv.add (sampleEnv.add (sampleEnv.add (sampleEnv.add
          (sampleEnv.div (sampleEnv.elapsed 0) 16) (sampleEnv.div (sampleEnv.elapsed 2) 16))
          (sampleEnv.div (sampleEnv.elapsed 4) 8)) (sampleEnv.div (sampleEnv.elapsed 6) 4))
          (sampleEnv.div (sampleEnv.elapsed 8) 2) :=
  (C7_smoothed_time sampleEnv (Timed.init (populate sampleEnv 0)) binary64_half binary64_idem
    (fun _ => binary64_idem _)).2.2.2.2.1

theorem rnd_nonneg (env : Env) (hmono : Monotone env.rnd) (h0 : env.rnd 0 = 0) {x : ℚ}
    (hx : 0 ≤ x) : 0 ≤ env.rnd x := by
  have := hmono hx
  rwa [h0] at this

theorem ptrTrials_time_nonneg (env : Env) (hmono : Monotone env.rnd) (h0 : env.rnd 0 = 0)
    (s : Timed) (hs : 0 ≤ s.ptrTimeUs) (he : ∀ i, 0 ≤ env.elapsed (s.now + 2 * i)) (R : ℕ) :
    0 ≤ (ptrTrials env R s).ptrTimeUs := by
  induction R with
  | zero => exact hs
  | succ R ih =>
    rw [ptrTrials_time_succ]
    split_ifs with h
    · exact he 0
    · simp only [Env.mul, Env.add, half]
      exact rnd_nonneg env hmono h0
        (mul_nonneg (rnd_nonneg env hmono h0 (add_nonneg ih (he R))) (by norm_num))

theorem unionTrials_time_nonneg (env : Env) (hmono : Monotone env.rnd) (h0 : env.rnd 0 = 0)
    (s : Timed) (hs : 0 ≤ s.unionTimeUs) (he : ∀ i, 0 ≤ env.elapsed (s.now + 2 * i)) (R : ℕ) :
    0 ≤ (unionTrials env R s).unionTimeUs := by
  induction R with
  | zero => exact hs
  | succ R ih =>
    rw [unionTrials_time_succ]
    split_ifs with h
    · exact he 0
    · simp only [Env.mul, Env.add, half]
      exact rnd_nonneg env hmono h0
        (mul_nonneg (rnd_nonneg env hmono h0 (add_nonneg ih (he R))) (by norm_num))

theorem ptrTrials_result_nil (env : Env) (s : Timed) (hs : s.ptrVec = []) (R : ℕ) :
    (ptrTrials env R s).ptrThrowawayResult = s.ptrThrowawayResult := by
  induction R with
  | zero => rfl
  | succ R ih => rw [ptrTrials_result_succ, hs, ih]; rfl

theorem unionTrials_result_nil (env : Env) (s : Timed) (hs : s.unionVec = []) (R : ℕ) :
    (unionTrials env R s).unionThrowawayResult = s.unionThrowawayResult := by
  induction R with
  | zero => rfl
  | succ R ih => rw [unionTrials_result_succ, hs, ih]; rfl

/-- C9: with a target count of 0 the population phase leaves the vector of
pointers and the vector of tagged unions empty, whatever the random stream;
both accumulated sums are exactly 0 after all trials; and when every trial
reads an end timestamp that is not earlier than its start timestamp, the
smoothed elapsed time of each collection is non-negative. -/
theorem C9_empty_run (env : Env) (R : ℕ) (hmono : Monotone env.rnd) (h0 : env.rnd 0 = 0)
    (hmic : ∀ d : ℤ, 0 ≤ d → 0 ≤ env.micros d)
    (hclk : ∀ k, env.clock (2 * k) ≤ env.clock (2 * k + 1)) :
    (populate env 0).ptrVec = [] ∧ (populate env 0).unionVec = [] ∧
    (run env 0 R).ptrThrowawayResult = 0 ∧ (run env 0 R).unionThrowawayResult = 0 ∧
    0 ≤ (run env 0 R).ptrTimeUs ∧ 0 ≤ (run env 0 R).unionTimeUs := by
  have he : ∀ k, 0 ≤ env.elapsed (2 * k) := fun k =>
    hmic _ (sub_nonneg.2 (hclk k))
  have f1 := ptrTrials_frame env R (Timed.init (populate env 0))
  have f2 := unionTrials_frame env R (ptrTrials env R (Timed.init (populate env 0)))
  refine ⟨rfl, rfl, ?_, ?_, ?_, ?_⟩
  · show (unionTrials env R (ptrTrials env R (Timed.init (populate env 0)))).ptrThrowawayResult = 0
    rw [f2.2.2.2.1, ptrTrials_result_nil env _ rfl]; rfl
  · show (unionTrials env R (ptrTrials env R (Timed.init (populate env 0)))).unionThrowawayResult
      = 0
    rw [unionTrials_result_nil env _ (by rw [f1.2.2.1]; rfl), f1.2.2.2.1]; rfl
  · show 0 ≤ (unionTrials env R (ptrTrials env R (Timed.init (populate env 0)))).ptrTimeUs
    rw [f2.2.2.2.2.1]
    apply ptrTrials_time_nonneg env hmono h0 _ (le_refl _)
    intro i
    have := he i
    simpa [Timed.init] using this
  · show 0 ≤ (unionTrials env R (ptrTrials env R (Timed.init (populate env 0)))).unionTimeUs
    apply unionTrials_time_nonneg env hmono h0
    · rw [f1.2.2.2.2.1]; exact le_refl _
    · intro i
      rw [f1.2.2.2.2.2]
      have := he (R + i)
      simpa [Timed.init, mul_add] using this

theorem sampleEnv_micros_nonneg (d : ℤ) (hd : 0 ≤ d) : 0 ≤ sampleEnv.micros d := by
  show 0 ≤ binary64 (binary64 (d : ℚ) / binary64 1000)
  apply binary64_nonneg
  apply div_nonneg
  · exact binary64_nonneg (by exact_mod_cast hd)
  · exact binary64_nonneg (by norm_num)

/-- The statement of C9 on the sample platform, for the five trials of `main`. -/
theorem C9_empty_run_witness :
    (populate sampleEnv 0).ptrVec = [] ∧ (populate sampleEnv 0).unionVec = [] ∧
    (run sampleEnv 0 runThroughs).ptrThrowawayResult = 0 ∧
    (run sampleEnv 0 runThroughs).unionThrowawayResult = 0 ∧
    0 ≤ (run sampleEnv 0 runThroughs).ptrTimeUs ∧
    0 ≤ (run sampleEnv 0 runThroughs).unionTimeUs :=
  C9_empty_run sampleEnv runThroughs binary64_mono binary64_zero sampleEnv_micros_nonneg
    (by intro k; simp only [sampleEnv, ieeeEnv]; push_cast; linarith)

theorem ptrPass_eq (env : Env) (l : List ValueBase) (acc : Double) :
    ptrPass env l acc = (l.map (·.count env)).foldl env.add acc := by
  simp only [ptrPass, List.foldl_map]

theorem unionPass_eq (env : Env) (l : List TaggedUnion) (acc : Double) :
    unionPass env l acc = (l.map (·.count env)).foldl env.add acc := by
  simp only [unionPass, List.foldl_map]

theorem ptrTrials_result (env : Env) (R : ℕ) (s : Timed) :
    (ptrTrials env R s).ptrThrowawayResult
      = (fun acc => (s.ptrVec.map (·.count env)).foldl env.add acc)^[R] s.ptrThrowawayResult := by
  induction R with
  | zero => rfl
  | succ R ih => rw [ptrTrials_result_succ, ih, ptrPass_eq, Function.iterate_succ_apply']

theorem unionTrials_result (env : Env) (R : ℕ) (s : Timed) :
    (unionTrials env R s).unionThrowawayResult
      = (fun acc => (s.unionVec.map (·.count env)).foldl env.add acc)^[R]
          s.unionThrowawayResult := by
  induction R with
  | zero => rfl
  | succ R ih => rw [unionTrials_result_succ, ih, unionPass_eq, Function.iterate_succ_apply']

theorem foldl_add_exact (env : Env) (hexact : ∀ x, env.rnd x = x) (l : List Double)
    (acc : Double) : l.foldl env.add acc = acc + l.sum := by
  induction l generalizing acc with
  | nil => simp
  | cons x l ih => rw [List.foldl_cons, ih, Env.add, hexact, List.sum_cons]; ring

theorem iterate_add_exact (env : Env) (hexact : ∀ x, env.rnd x = x) (l : List Double)
    (acc : Double) (R : ℕ) :
    (fun a => l.foldl env.add a)^[R] acc = acc + R * l.sum := by
  induction R with
  | zero => simp
  | succ R ih =>
    rw [Function.iterate_succ_apply', ih, foldl_add_exact env hexact]
    push_cast; ring

theorem drift_ptr_one_pass :
    (run driftEnv 2 1).ptrThrowawayResult = 8531312323370589 / 70368744177664 := by
  decide!

theorem drift_ptr_two_passes :
    (run driftEnv 2 2).ptrThrowawayResult = 4265656161685295 / 17592186044416 := by
  decide!

theorem drift_ptr_five_passes :
    (run driftEnv 2 5).ptrThrowawayResult = 5332070202106619 / 8796093022208 := by
  decide!

theorem drift_products :
    driftEnv.mul 2 (8531312323370589 / 70368744177664) = 8531312323370589 / 35184372088832 ∧
    driftEnv.mul 5 (8531312323370589 / 70368744177664) = 2666035101053309 / 4398046511104 := by
  decide!

/-- C8 (as stated, refuted): on the platform `driftEnv` with two records
(81 and 162 values) the first pass over the vector of pointers raises the
accumulator from 0 to 121.2372399574319, and the second pass adds a different
amount: after two passes the accumulator is 242.47447991486382, not twice the
single-pass total; after five passes it is not five times that total either,
whether the product is taken exactly or in `double` arithmetic. -/
theorem C8_passes_add_different_amounts :
    (run driftEnv 2 2).ptrThrowawayResult - (run driftEnv 2 1).ptrThrowawayResult
      ≠ (run driftEnv 2 1).ptrThrowawayResult - 0 ∧
    (run driftEnv 2 2).ptrThrowawayResult ≠ 2 * (run driftEnv 2 1).ptrThrowawayResult ∧
    (run driftEnv 2 2).ptrThrowawayResult
      ≠ driftEnv.mul 2 (run driftEnv 2 1).ptrThrowawayResult ∧
    (run driftEnv 2 5).ptrThrowawayResult ≠ 5 * (run driftEnv 2 1).ptrThrowawayResult ∧
    (run driftEnv 2 5).ptrThrowawayResult
      ≠ driftEnv.mul 5 (run driftEnv 2 1).ptrThrowawayResult := by
  rw [drift_ptr_one_pass, drift_ptr_two_passes, drift_ptr_five_passes, drift_products.1,
    drift_products.2]
  norm_num

/-- C8 (amended): a traversal pass changes neither vector and folds the
`count()` of every element, in order, into the accumulator by `double`
additions; the per-element sums are the same in every pass and the
accumulator is never reset, so after R passes it is the R-fold repetition of
that fold, started from its initial value.  Where the additions are exact,
each pass adds the sum of all `count()` and after R passes the accumulator has
grown by R times that sum. -/
theorem C8_passes_repeat_fold (env : Env) (R : ℕ) (s : Timed) :
    (timedPhase env R s).ptrVec = s.ptrVec ∧ (timedPhase env R s).unionVec = s.unionVec ∧
    (timedPhase env R s).ptrThrowawayResult
      = (fun acc => (s.ptrVec.map (·.count env)).foldl env.add acc)^[R] s.ptrThrowawayResult ∧
    (timedPhase env R s).unionThrowawayResult
      = (fun acc => (s.unionVec.map (·.count env)).foldl env.add acc)^[R]
          s.unionThrowawayResult ∧
    ((∀ x, env.rnd x = x) →
      (timedPhase env R s).ptrThrowawayResult
        = s.ptrThrowawayResult + R * (s.ptrVec.map (·.count env)).sum ∧
      (timedPhase env R s).unionThrowawayResult
        = s.unionThrowawayResult + R * (s.unionVec.map (·.count env)).sum) := by
  have f1 := ptrTrials_frame env R s
  have f2 := unionTrials_frame env R (ptrTrials env R s)
  have hp : (timedPhase env R s).ptrThrowawayResult
      = (fun acc => (s.ptrVec.map (·.count env)).foldl env.add acc)^[R]
          s.ptrThrowawayResult := by
    rw [timedPhase, f2.2.2.2.1, ptrTrials_result]
  have hu : (timedPhase env R s).unionThrowawayResult
      = (fun acc => (s.unionVec.map (·.count env)).foldl env.add acc)^[R]
          s.unionThrowawayResult := by
    rw [timedPhase, unionTrials_result, f1.2.2.1, f1.2.2.2.1]
  refine ⟨?_, ?_, hp, hu, ?_⟩
  · rw [timedPhase, f2.1, f1.1]
  · rw [timedPhase, f2.2.2.1, f1.2.2.1]
  · intro hexact
    rw [hp, hu, iterate_add_exact env hexact, iterate_add_exact env hexact]
    exact ⟨rfl, rfl⟩

/-- The exact case of C8 on the sample platform with exact arithmetic, for
three records and the five trials of `main`. -/
theorem C8_passes_repeat_fold_witness :
    (timedPhase exactSampleEnv runThroughs
        (Timed.init (populate exactSampleEnv 3))).ptrThrowawayResult
      = (Timed.init (populate exactSampleEnv 3)).ptrThrowawayResult + (runThroughs : ℕ) *
          ((Timed.init (populate exactSampleEnv 3)).ptrVec.map
            (·.count exactSampleEnv)).sum ∧
    (timedPhase exactSampleEnv runThroughs
        (Timed.init (populate exactSampleEnv 3))).unionThrowawayResult
      = (Timed.init (populate exactSampleEnv 3)).unionThrowawayResult + (runThroughs : ℕ) *
          ((Timed.init (populate exactSampleEnv 3)).unionVec.map
            (·.count exactSampleEnv)).sum :=
  (C8_passes_repeat_fold exactSampleEnv runThroughs
    (Timed.init (populate exactSampleEnv 3))).2.2.2.2 (fun _ => rfl)

theorem populateSwitch_heapFragmenter (env : Env) (s : Population) (rand1 pos : ℕ) :
    (populateSwitch env s rand1 pos).heapFragmenter = s.heapFragmenter := by
  unfold populateSwitch
  split <;> rfl

theorem populateStep_heapFragmenter (env : Env) (s : Population) :
    (populateStep env s).heapFragmenter.map ValueBase.typeIndex
      = s.heapFragmenter.map ValueBase.typeIndex
          ++ (if env.rng (s.pos + 1) % 2 = 0 then [2] else []) ∧
    (populateStep env s).heapFragmenter.map (fun b => b.getData.2)
      = s.heapFragmenter.map (fun b => b.getData.2)
          ++ (if env.rng (s.pos + 1) % 2 = 0 then [struct3] else []) := by
  unfold populateStep
  simp only []
  split_ifs with h
  · simp [populateSwitch_heapFragmenter, ValueBase.typeIndex, ValueBase.getData,
      ValueDerived.getData]
  · simp [populateSwitch_heapFragmenter]

theorem populate_heapFragmenter (env : Env) (n : ℕ) :
    (populate env n).heapFragmenter.map ValueBase.typeIndex
      = List.replicate
          ((List.range n).countP (fun i => env.rng ((populate env i).pos + 1) % 2 = 0)) 2 ∧
    (populate env n).heapFragmenter.map (fun b => b.getData.2)
      = List.replicate
          ((List.range n).countP (fun i => env.rng ((populate env i).pos + 1) % 2 = 0))
          struct3 := by
  induction n with
  | zero => simp [populate, populateLoop]
  | succ n ih =>
    obtain ⟨h1, h2⟩ := populateStep_heapFragmenter env (populate env n)
    rw [populate_succ, h1, h2, ih.1, ih.2, List.range_succ, List.countP_append]
    by_cases h : env.rng ((populate env n).pos + 1) % 2 = 0
    · simp [h, List.replicate_add]
    · simp [h]

theorem ptrTrials_set_heapFragmenter (env : Env) (R : ℕ) (s : Timed) (f : List ValueBase) :
    ptrTrials env R { s with heapFragmenter := f }
      = { ptrTrials env R s with heapFragmenter := f } := by
  induction R with
  | zero => rfl
  | succ R ih => rw [ptrTrials_succ, ptrTrials_succ, ih]; rfl

theorem unionTrials_set_heapFragmenter (env : Env) (R : ℕ) (s : Timed) (f : List ValueBase) :
    unionTrials env R { s with heapFragmenter := f }
      = { unionTrials env R s with heapFragmenter := f } := by
  induction R with
  | zero => rfl
  | succ R ih => rw [unionTrials_succ, unionTrials_succ, ih]; rfl

theorem timedPhase_set_heapFragmenter (env : Env) (R : ℕ) (s : Timed) (f : List ValueBase) :
    timedPhase env R { s with heapFragmenter := f }
      = { timedPhase env R s with heapFragmenter := f } := by
  rw [timedPhase, ptrTrials_set_heapFragmenter, unionTrials_set_heapFragmenter]; rfl

/-- C10: the fragmenter vector receives one record for each iteration whose
second selector `rand() % 2` is 0 and nothing otherwise; each of its records
is a `ValueType2` with 243 values; it holds at most n records; and the timed
phase neither changes it nor depends on it: replacing its contents by any
other list leaves both accumulated sums and both smoothed times the same. -/
theorem C10_fragmenter (env : Env) (n R : ℕ) (s : Timed) (f : List ValueBase) :
    (populate env n).heapFragmenter.length
      = (List.range n).countP (fun i => env.rng ((populate env i).pos + 1) % 2 = 0) ∧
    (populate env n).heapFragmenter.map ValueBase.typeIndex
      = List.replicate (populate env n).heapFragmenter.length 2 ∧
    (populate env n).heapFragmenter.map (fun b => b.getData.2)
      = List.replicate (populate env n).heapFragmenter.length 243 ∧
    (populate env n).heapFragmenter.length ≤ n ∧
    (timedPhase env R s).heapFragmenter = s.heapFragmenter ∧
    (timedPhase env R { s with heapFragmenter := f }).ptrThrowawayResult
      = (timedPhase env R s).ptrThrowawayResult ∧
    (timedPhase env R { s with heapFragmenter := f }).unionThrowawayResult
      = (timedPhase env R s).unionThrowawayResult ∧
    (timedPhase env R { s with heapFragmenter := f }).ptrTimeUs
      = (timedPhase env R s).ptrTimeUs ∧
    (timedPhase env R { s with heapFragmenter := f }).unionTimeUs
      = (timedPhase env R s).unionTimeUs := by
  obtain ⟨h1, h2⟩ := populate_heapFragmenter env n
  have hl : (populate env n).heapFragmenter.length
      = (List.range n).countP (fun i => env.rng ((populate env i).pos + 1) % 2 = 0) := by
    have := congrArg List.length h1
    simpa using this
  refine ⟨hl, ?_, ?_, ?_, ?_, ?_, ?_, ?_, ?_⟩
  · rw [h1, hl]
  · rw [h2, hl]; rfl
  · rw [hl]
    calc (List.range n).countP _ ≤ (List.range n).length := List.countP_le_length _
      _ = n := List.length_range n
  · rw [timedPhase, (unionTrials_frame env R _).2.1, (ptrTrials_frame env R s).2.1]
  all_goals rw [timedPhase_set_heapFragmenter]

/-! ## The report -/

theorem run_lengths (env : Env) (n R : ℕ) :
    (run env n R).ptrVec.length = n ∧ (run env n R).unionVec.length = n := by
  obtain ⟨h1, _, h3⟩ := populate_shapes env n
  have f1 := ptrTrials_frame env R (Timed.init (populate env n))
  have f2 := unionTrials_frame env R (ptrTrials env R (Timed.init (populate env n)))
  have e1 : (run env n R).ptrVec = (populate env n).ptrVec := by
    rw [run, timedPhase, f2.1, f1.1]; rfl
  have e2 : (run env n R).unionVec = (populate env n).unionVec := by
    rw [run, timedPhase, f2.2.2.1, f1.2.2.1]; rfl
  rw [e1, e2]
  constructor
  · have := congrArg List.length h1
    simpa using this
  · have := congrArg List.length h3
    simpa using this

/-- C11: the report consists of these insertions, in this order, between
fixed string literals: the record count, the three shape lengths (written as
"81, 162, 243"), the smoothed time of the vector of pointers, the smoothed
time of the vector of unions, the accumulated sum of the pointers and the
accumulated sum of the unions; it holds no other value.  The count printed is
the number of records in each of the two vectors. -/
theorem C11_report_contents (env : Env) (fmt : Double → String) (n R : ℕ) :
    (report n (run env n R)).filter Piece.isValue
      = [Piece.size n, Piece.size 81, Piece.size 162, Piece.size 243,
         Piece.dbl (run env n R).ptrTimeUs, Piece.dbl (run env n R).unionTimeUs,
         Piece.dbl (run env n R).ptrThrowawayResult,
         Piece.dbl (run env n R).unionThrowawayResult] ∧
    (run env n R).ptrVec.length = n ∧ (run env n R).unionVec.length = n ∧
    [Piece.size struct1, Piece.text ", ", Piece.size struct2, Piece.text ", ",
      Piece.size struct3].IsInfix (report n (run env n R)) ∧
    String.join ([Piece.size struct1, Piece.text ", ", Piece.size struct2, Piece.text ", ",
      Piece.size struct3].map (Piece.render fmt)) = "81, 162, 243" ∧
    reportText fmt n (run env n R)
      = String.join [toString n, " iterations. \n", "struct sizes: ", "81", ", ", "162", ", ",
          "243", " (doubles)\n-------- \n",
          "vec of pointers took: ", fmt (run env n R).ptrTimeUs, "us \n",
          "vec of unions took: ", fmt (run env n R).unionTimeUs, "us \n",
          "ptrs result: ", fmt (run env n R).ptrThrowawayResult,
          ", union result: ", fmt (run env n R).unionThrowawayResult, "\n"] := by
  have h81 : toString (81 : ℕ) = "81" := by decide
  have h162 : toString (162 : ℕ) = "162" := by decide
  have h243 : toString (243 : ℕ) = "243" := by decide
  refine ⟨rfl, (run_lengths env n R).1, (run_lengths env n R).2, ?_, ?_, ?_⟩
  · exact ⟨[Piece.size n, Piece.text " iterations. \n", Piece.text "struct sizes: "], _, rfl⟩
  · simp only [List.map, Piece.render, struct1, struct2, struct3, h81, h162, h243]
    decide
  · simp only [reportText, report, List.map, Piece.render, struct1, struct2, struct3, h81, h162,
      h243]

/-! ## The discriminant -/

theorem written_tag (env : Env) (u : TaggedUnion) (k : ℕ) (d : List Double)
    (h : Written env u k d) :
    u.tag = k ∧ k < 3 ∧ d.length = shapeLength k ∧
      u.value.mem.1.take (shapeLength k) = d ∧ u.count env = accumulate env d 0 := by
  induction h with
  | ofType0 raw t pos =>
    refine ⟨rfl, by norm_num, t.data.2, ?_, count_ofType0 env raw t pos⟩
    exact take_store _ t.data (by decide)
  | ofType1 raw t pos =>
    refine ⟨rfl, by norm_num, t.data.2, ?_, count_ofType1 env raw t pos⟩
    exact take_store _ t.data (by decide)
  | ofType2 raw t pos =>
    refine ⟨rfl, by norm_num, t.data.2, ?_, count_ofType2 env raw t pos⟩
    exact take_store _ t.data (by decide)
  | copy raw u k d _ ih => rw [copy_eq]; exact ih

theorem populateSwitch_written (env : Env) (s : Population) (k pos : ℕ)
    (hs : ∀ u ∈ s.unionVec, ∃ k d, Written env u k d) :
    ∀ u ∈ (populateSwitch env s k pos).unionVec, ∃ k d, Written env u k d := by
  unfold populateSwitch
  split
  all_goals
    intro u hu
    simp only [pushUnion, List.mem_append, List.mem_singleton] at hu
  · rcases hu with hu | rfl
    · exact hs u hu
    · exact ⟨_, _, Written.copy _ _ _ _ (Written.ofType0 _ _ _)⟩
  · rcases hu with hu | rfl
    · exact hs u hu
    · exact ⟨_, _, Written.copy _ _ _ _ (Written.ofType1 _ _ _)⟩
  · rcases hu with hu | rfl
    · exact hs u hu
    · exact ⟨_, _, Written.copy _ _ _ _ (Written.ofType2 _ _ _)⟩
  · exact hs u hu

theorem populateStep_written (env : Env) (s : Population)
    (hs : ∀ u ∈ s.unionVec, ∃ k d, Written env u k d) :
    ∀ u ∈ (populateStep env s).unionVec, ∃ k d, Written env u k d := by
  unfold populateStep
  simp only []
  split_ifs with h
  · exact populateSwitch_written env s _ _ hs
  · exact populateSwitch_written env s _ _ hs

theorem populate_written (env : Env) (n : ℕ) :
    ∀ u ∈ (populate env n).unionVec, ∃ k d, Written env u k d := by
  induction n with
  | zero => intro u hu; simp [populate, populateLoop] at hu
  | succ n ih => rw [populate_succ]; exact populateStep_written env _ ih

/-- C12: a tagged union that arises in the program, built by a converting
constructor or copied from such a value, has the discriminant of the shape
that was last written into its storage, which is 0, 1 or 2, and the storage
begins with the buffer of that record, so `count` takes one of its three
regular branches; every element of the vector of unions is such a value; and
the population switch is entered with a selector below 3, so that each
iteration appends one record to each vector. -/
theorem C12_discriminant_invariant (env : Env) :
    (∀ u k d, Written env u k d →
      u.tag = k ∧ (k = Tag.type0 ∨ k = Tag.type1 ∨ k = Tag.type2) ∧
      d.length = shapeLength k ∧ u.value.mem.1.take (shapeLength k) = d ∧
      u.count env = accumulate env d 0) ∧
    (∀ n, ∀ u ∈ (populate env n).unionVec, ∃ k d, Written env u k d) ∧
    (∀ n, ∀ u ∈ (populate env n).unionVec, u.tag < 3 ∧
      u.count env = accumulate env (u.value.mem.1.take (shapeLength u.tag)) 0) ∧
    (∀ s : Population, env.rng s.pos % 3 < 3 ∧
      (populateStep env s).ptrVec.length = s.ptrVec.length + 1 ∧
      (populateStep env s).unionVec.length = s.unionVec.length + 1) := by
  refine ⟨?_, populate_written env, ?_, ?_⟩
  · intro u k d h
    obtain ⟨h1, h2, h3, h4, h5⟩ := written_tag env u k d h
    refine ⟨h1, ?_, h3, h4, h5⟩
    simp only [Tag.type0, Tag.type1, Tag.type2]; omega
  · intro n u hu
    obtain ⟨k, d, h⟩ := populate_written env n u hu
    obtain ⟨h1, h2, h3, h4, h5⟩ := written_tag env u k d h
    rw [h1, h4]
    exact ⟨h2, h5⟩
  · intro s
    obtain ⟨h1, _, h3⟩ := populateStep_shapes env s
    refine ⟨Nat.mod_lt _ (by norm_num), ?_, ?_⟩
    · have := congrArg List.length h1
      simpa using this
    · have := congrArg List.length h3
      simpa using this

/-- The invariant of C12 at a copy of a union built from a `ValueType1` record
on the sample platform. -/
theorem C12_discriminant_invariant_witness :
    (TaggedUnion.copy (sampleEnv.uninit sizeofValue)
        (TaggedUnion.ofType1 sampleEnv (sampleEnv.uninit sizeofValue)
          (constRecord struct2 1) 0).1).tag = 1 ∧
    ((1 : ℕ) = Tag.type0 ∨ (1 : ℕ) = Tag.type1 ∨ (1 : ℕ) = Tag.type2) ∧
    (constRecord struct2 1).data.1.length = shapeLength 1 ∧
    (TaggedUnion.copy (sampleEnv.uninit sizeofValue)
        (TaggedUnion.ofType1 sampleEnv (sampleEnv.uninit sizeofValue)
          (constRecord struct2 1) 0).1).value.mem.1.take (shapeLength 1)
      = (constRecord struct2 1).data.1 ∧
    (TaggedUnion.copy (sampleEnv.uninit sizeofValue)
        (TaggedUnion.ofType1 sampleEnv (sampleEnv.uninit sizeofValue)
          (constRecord struct2 1) 0).1).count sampleEnv
      = accumulate sampleEnv (constRecord struct2 1).data.1 0 :=
  (C12_discriminant_invariant sampleEnv).1 _ _ _
    (Written.copy _ _ _ _ (Written.ofType1 _ _ _))

/-! ## Monotone growth of the accumulators -/

theorem draw_nonneg (env : Env) (hmono : Monotone env.rnd) (h0 : env.rnd 0 = 0) (r : ℕ) :
    0 ≤ env.div (env.ofInt r) (env.ofInt env.RAND_MAX) := by
  simp only [Env.div, Env.ofInt, Int.cast_natCast]
  exact rnd_nonneg env hmono h0 (div_nonneg (rnd_nonneg env hmono h0 (Nat.cast_nonneg r))
    (rnd_nonneg env hmono h0 (Nat.cast_nonneg _)))

theorem fillData_nonneg (env : Env) (hmono : Monotone env.rnd) (h0 : env.rnd 0 = 0) {N : ℕ}
    (data : StdArray N) (pos : ℕ) : ∀ v ∈ (fillData env data pos).1.1, 0 ≤ v := by
  intro v hv
  rw [fillData_data, List.mem_map] at hv
  obtain ⟨i, _, rfl⟩ := hv
  exact draw_nonneg env hmono h0 _

theorem accumulate_nonneg (env : Env) (hmono : Monotone env.rnd) (h0 : env.rnd 0 = 0)
    (l : List Double) (hl : ∀ x ∈ l, 0 ≤ x) (init : Double) (hi : 0 ≤ init) :
    0 ≤ accumulate env l init := by
  induction l generalizing init with
  | nil => exact hi
  | cons x l ih =>
    simp only [accumulate, List.foldl_cons]
    exact ih (fun y hy => hl y (List.mem_cons_of_mem _ hy)) _
      (rnd_nonneg env hmono h0 (add_nonneg hi (hl x (List.mem_cons_self _ _))))

theorem new_count_nonneg (env : Env) (hmono : Monotone env.rnd) (h0 : env.rnd 0 = 0) {N : ℕ}
    (raw : StdArray N) (pos : ℕ) :
    0 ≤ accumulate env (ValueDerived.new env raw pos).1.data.1 0 :=
  accumulate_nonneg env hmono h0 _ (fillData_nonneg env hmono h0 raw pos) 0 le_rfl

/-- A `double` addition of a non-negative value does not decrease a `double`. -/
theorem le_add_of_nonneg (env : Env) (hmono : Monotone env.rnd) {acc c : Double}
    (hacc : env.rnd acc = acc) (hc : 0 ≤ c) : acc ≤ env.add acc c := by
  have := hmono (show acc ≤ acc + c by linarith)
  rwa [hacc] at this

theorem foldl_add_mono (env : Env) (hmono : Monotone env.rnd)
    (hidem : ∀ x, env.rnd (env.rnd x) = env.rnd x) (cs : List Double) (hcs : ∀ c ∈ cs, 0 ≤ c)
    (acc : Double) (hacc : env.rnd acc = acc) :
    acc ≤ cs.foldl env.add acc ∧ env.rnd (cs.foldl env.add acc) = cs.foldl env.add acc := by
  induction cs generalizing acc with
  | nil => exact ⟨le_rfl, hacc⟩
  | cons c cs ih =>
    simp only [List.foldl_cons]
    obtain ⟨h1, h2⟩ := ih (fun y hy => hcs y (List.mem_cons_of_mem _ hy)) (env.add acc c)
      (hidem _)
    exact ⟨le_trans (le_add_of_nonneg env hmono hacc (hcs c (List.mem_cons_self _ _))) h1, h2⟩

theorem iterate_fold_rep (env : Env) (hmono : Monotone env.rnd)
    (hidem : ∀ x, env.rnd (env.rnd x) = env.rnd x) (cs : List Double) (hcs : ∀ c ∈ cs, 0 ≤ c)
    (acc : Double) (hacc : env.rnd acc = acc) (R : ℕ) :
    env.rnd ((fun a => cs.foldl env.add a)^[R] acc) = (fun a => cs.foldl env.add a)^[R] acc := by
  induction R with
  | zero => exact hacc
  | succ R ih =>
    rw [Function.iterate_succ_apply']
    exact (foldl_add_mono env hmono hidem cs hcs _ ih).2

theorem foldl_take_succ (env : Env) (hmono : Monotone env.rnd)
    (hidem : ∀ x, env.rnd (env.rnd x) = env.rnd x) (cs : List Double) (hcs : ∀ c ∈ cs, 0 ≤ c)
    (acc : Double) (hacc : env.rnd acc = acc) (k : ℕ) :
    (cs.take k).foldl env.add acc ≤ (cs.take (k + 1)).foldl env.add acc := by
  rw [List.take_succ, List.foldl_append]
  have hk := foldl_add_mono env hmono hidem (cs.take k)
    (fun c hc => hcs c (List.mem_of_mem_take hc)) acc hacc
  cases h : cs[k]? with
  | none => simp
  | some c =>
    simp only [Option.toList, List.foldl_cons, List.foldl_nil]
    have hc : c ∈ cs := by
      rw [List.getElem?_eq_some_iff] at h
      obtain ⟨hlt, rfl⟩ := h
      exact List.getElem_mem _
    exact le_add_of_nonneg env hmono hk.2 (hcs c hc)


theorem populateSwitch_counts_nonneg (env : Env) (hmono : Monotone env.rnd)
    (h0 : env.rnd 0 = 0) (s : Population) (k pos : ℕ)
    (hp : ∀ b ∈ s.ptrVec, 0 ≤ b.count env) (hu : ∀ u ∈ s.unionVec, 0 ≤ u.count env) :
    (∀ b ∈ (populateSwitch env s k pos).ptrVec, 0 ≤ b.count env) ∧
      (∀ u ∈ (populateSwitch env s k pos).unionVec, 0 ≤ u.count env) := by
  unfold populateSwitch
  split
  · constructor
    · intro b hb
      simp only [List.mem_append, List.mem_singleton] at hb
      rcases hb with hb | rfl
      · exact hp b hb
      · rw [show (ValueBase.derived0 _).count env = _ from count_derived env _]
        exact new_count_nonneg env hmono h0 _ _
    · intro u hu'
      simp only [pushUnion, List.mem_append, List.mem_singleton] at hu'
      rcases hu' with hu' | rfl
      · exact hu u hu'
      · rw [copy_eq, count_ofType0]
        exact new_count_nonneg env hmono h0 _ _
  · constructor
    · intro b hb
      simp only [List.mem_append, List.mem_singleton] at hb
      rcases hb with hb | rfl
      · exact hp b hb
      · rw [show (ValueBase.derived1 _).count env = _ from count_derived env _]
        exact new_count_nonneg env hmono h0 _ _
    · intro u hu'
      simp only [pushUnion, List.mem_append, List.mem_singleton] at hu'
      rcases hu' with hu' | rfl
      · exact hu u hu'
      · rw [copy_eq, count_ofType1]
        exact new_count_nonneg env hmono h0 _ _
  · constructor
    · intro b hb
      simp only [List.mem_append, List.mem_singleton] at hb
      rcases hb with hb | rfl
      · exact hp b hb
      · rw [show (ValueBase.derived2 _).count env = _ from count_derived env _]
        exact new_count_nonneg env hmono h0 _ _
    · intro u hu'
      simp only [pushUnion, List.mem_append, List.mem_singleton] at hu'
      rcases hu' with hu' | rfl
      · exact hu u hu'
      · rw [copy_eq, count_ofType2]
        exact new_count_nonneg env hmono h0 _ _
  · exact ⟨hp, hu⟩

theorem populate_counts_nonneg (env : Env) (hmono : Monotone env.rnd) (h0 : env.rnd 0 = 0)
    (n : ℕ) :
    (∀ b ∈ (populate env n).ptrVec, 0 ≤ b.count env) ∧
      (∀ u ∈ (populate env n).unionVec, 0 ≤ u.count env) := by
  induction n with
  | zero =>
    constructor
    · intro b hb; simp [populate, populateLoop] at hb
    · intro u hu; simp [populate, populateLoop] at hu
  | succ n ih =>
    rw [populate_succ]
    unfold populateStep
    simp only []
    split_ifs with h
    · exact populateSwitch_counts_nonneg env hmono h0 _ _ _ ih.1 ih.2
    · exact populateSwitch_counts_nonneg env hmono h0 _ _ _ ih.1 ih.2

theorem run_results (env : Env) (n R : ℕ) :
    (run env n R).ptrThrowawayResult
      = (fun acc => ((populate env n).ptrVec.map (·.count env)).foldl env.add acc)^[R] 0 ∧
    (run env n R).unionThrowawayResult
      = (fun acc => ((populate env n).unionVec.map (·.count env)).foldl env.add acc)^[R] 0 := by
  have f1 := ptrTrials_frame env R (Timed.init (populate env n))
  have f2 := unionTrials_frame env R (ptrTrials env R (Timed.init (populate env n)))
  constructor
  · rw [run, timedPhase, f2.2.2.2.1, ptrTrials_result]; rfl
  · rw [run, timedPhase, unionTrials_result, f1.2.2.1, f1.2.2.2.1]; rfl

/-- C13: on a platform whose rounding is monotone, idempotent and maps 0 to 0,
every value that `fillData` generates is non-negative, so the `count()` of
every element of both vectors is non-negative; within a trial each accumulator
is at least as large after an element as before it, and after trial j + 1 it is
at least what it was after trial j. -/
theorem C13_accumulators_monotone (env : Env) (n R : ℕ) (hmono : Monotone env.rnd)
    (h0 : env.rnd 0 = 0) (hidem : ∀ x, env.rnd (env.rnd x) = env.rnd x) :
    (∀ (N : ℕ) (data : StdArray N) (pos : ℕ), ∀ v ∈ (fillData env data pos).1.1, 0 ≤ v) ∧
    (∀ b ∈ (populate env n).ptrVec, 0 ≤ b.count env) ∧
    (∀ u ∈ (populate env n).unionVec, 0 ≤ u.count env) ∧
    (∀ k, ptrPass env ((populate env n).ptrVec.take k) (run env n R).ptrThrowawayResult
        ≤ ptrPass env ((populate env n).ptrVec.take (k + 1))
            (run env n R).ptrThrowawayResult) ∧
    (∀ k, unionPass env ((populate env n).unionVec.take k) (run env n R).unionThrowawayResult
        ≤ unionPass env ((populate env n).unionVec.take (k + 1))
            (run env n R).unionThrowawayResult) ∧
    (run env n R).ptrThrowawayResult ≤ (run env n (R + 1)).ptrThrowawayResult ∧
    (run env n R).unionThrowawayResult ≤ (run env n (R + 1)).unionThrowawayResult := by
  obtain ⟨hp, hu⟩ := populate_counts_nonneg env hmono h0 n
  have hp' : ∀ c ∈ (populate env n).ptrVec.map (·.count env), 0 ≤ c := by
    intro c hc
    rw [List.mem_map] at hc
    obtain ⟨b, hb, rfl⟩ := hc
    exact hp b hb
  have hu' : ∀ c ∈ (populate env n).unionVec.map (·.count env), 0 ≤ c := by
    intro c hc
    rw [List.mem_map] at hc
    obtain ⟨u, hu1, rfl⟩ := hc
    exact hu u hu1
  have rp := iterate_fold_rep env hmono hidem _ hp' 0 h0 R
  have ru := iterate_fold_rep env hmono hidem _ hu' 0 h0 R
  refine ⟨fun _ data pos => fillData_nonneg env hmono h0 data pos, hp, hu, ?_, ?_, ?_, ?_⟩
  · intro k
    rw [ptrPass_eq, ptrPass_eq, List.map_take, List.map_take, (run_results env n R).1]
    exact foldl_take_succ env hmono hidem _ hp' _ rp k
  · intro k
    rw [unionPass_eq, unionPass_eq, List.map_take, List.map_take, (run_results env n R).2]
    exact foldl_take_succ env hmono hidem _ hu' _ ru k
  · rw [(run_results env n R).1, (run_results env n (R + 1)).1, Function.iterate_succ_apply']
    exact (foldl_add_mono env hmono hidem _ hp' _ rp).1
  · rw [(run_results env n R).2, (run_results env n (R + 1)).2, Function.iterate_succ_apply']
    exact (foldl_add_mono env hmono hidem _ hu' _ ru).1

/-- The statement of C13 on the sample platform, for three records and the
step from the fourth to the fifth trial. -/
theorem C13_accumulators_monotone_witness :
    (run sampleEnv 3 4).ptrThrowawayResult ≤ (run sampleEnv 3 (4 + 1)).ptrThrowawayResult ∧
    (run sampleEnv 3 4).unionThrowawayResult ≤ (run sampleEnv 3 (4 + 1)).unionThrowawayResult :=
  (C13_accumulators_monotone sampleEnv 3 4 binary64_mono binary64_zero binary64_idem).2.2.2.2.2

/-! ## The shape selector -/

theorem selectorCount_eq (M k : ℕ) (hk : k < 3) : selectorCount M k = (M + 3 - k) / 3 := by
  induction M with
  | zero =>
    simp only [selectorCount, List.range_succ, List.range_zero, List.nil_append]
    interval_cases k <;> simp
  | succ M ih =>
    have hs : selectorCount (M + 1) k
        = selectorCount M k + if (M + 1) % 3 = k then 1 else 0 := by
      simp only [selectorCount]
      rw [List.range_succ, List.countP_append]
      simp [List.countP_cons]
    rw [hs, ih]
    split_ifs with h <;> omega

/-- C14 (as stated, refuted): of the 2^31 possible results of `rand()` for
`RAND_MAX = 2^31 - 1`, the selector `rand() % 3` maps 715827883 to Shape0,
715827883 to Shape1 and only 715827882 to Shape2; for `RAND_MAX = 32767` the
numbers are 10923, 10923 and 10922.  The thirds are not equal. -/
theorem C14_thirds_are_unequal :
    selectorCount 2147483647 0 = 715827883 ∧ selectorCount 2147483647 1 = 715827883 ∧
    selectorCount 2147483647 2 = 715827882 ∧
    selectorCount 2147483647 2 ≠ selectorCount 2147483647 0 ∧
    selectorCount 32767 0 = 10923 ∧ selectorCount 32767 1 = 10923 ∧
    selectorCount 32767 2 = 10922 ∧ selectorCount 32767 2 ≠ selectorCount 32767 0 := by
  simp only [selectorCount_eq _ 0 (by norm_num), selectorCount_eq _ 1 (by norm_num),
    selectorCount_eq _ 2 (by norm_num)]
  decide

/-- C14 (amended): the selector `rand() % 3` splits the `RAND_MAX + 1` possible
results of `rand()` into three classes whose sizes differ by at most one:
Shape0 gets at least as many results as Shape1, Shape1 at least as many as
Shape2, and Shape0 at most one more than Shape2; the three sizes are equal
exactly when `RAND_MAX + 1` is a multiple of 3, which is the case neither for
`RAND_MAX = 2^31 - 1` nor for `RAND_MAX = 32767`. -/
theorem C14_thirds_differ_by_at_most_one (RAND_MAX : ℕ) :
    selectorCount RAND_MAX 0 + selectorCount RAND_MAX 1 + selectorCount RAND_MAX 2
      = RAND_MAX + 1 ∧
    selectorCount RAND_MAX 2 ≤ selectorCount RAND_MAX 1 ∧
    selectorCount RAND_MAX 1 ≤ selectorCount RAND_MAX 0 ∧
    selectorCount RAND_MAX 0 ≤ selectorCount RAND_MAX 2 + 1 ∧
    ((selectorCount RAND_MAX 0 = selectorCount RAND_MAX 1 ∧
        selectorCount RAND_MAX 1 = selectorCount RAND_MAX 2) ↔ (RAND_MAX + 1) % 3 = 0) ∧
    (2147483647 + 1) % 3 ≠ 0 ∧ (32767 + 1) % 3 ≠ 0 := by
  rw [selectorCount_eq _ 0 (by norm_num), selectorCount_eq _ 1 (by norm_num),
    selectorCount_eq _ 2 (by norm_num)]
  refine ⟨by omega, by omega, by omega, by omega, ⟨fun h => by omega, fun h => by omega⟩,
    by decide, by decide⟩

/-! ## The order of the random draws -/

theorem new_segment (env : Env) {N : ℕ} (raw : StdArray N) (pos : ℕ) :
    (ValueDerived.new env raw pos).1.data.1 = env.segment pos N ∧
      (ValueDerived.new env raw pos).2 = pos + N :=
  ⟨fillData_data env raw pos, fillData_pos env raw pos⟩

theorem valueNew_segment (env : Env) (raw : StdArray sizeofValue) (pos : ℕ) :
    (Value.new env raw pos).1.mem.1 = env.segment pos struct1 ++ raw.1.drop struct1 ∧
      (Value.new env raw pos).2 = pos + struct1 := by
  simp only [Value.new, store, (new_segment env _ pos).1, (new_segment env _ pos).2]
  exact ⟨trivial, trivial⟩

theorem segment_length (env : Env) (start len : ℕ) : (env.segment start len).length = len := by
  simp [Env.segment]

theorem drop_default (env : Env) (raw : List Double) (pos N : ℕ) (h : struct1 ≤ N) :
    (env.segment pos struct1 ++ raw.drop struct1).drop N = raw.drop N := by
  rw [List.drop_append_eq_append_drop, segment_length, List.drop_drop,
    List.drop_eq_nil_of_le (by rw [segment_length]; exact h), List.nil_append]
  congr 1
  omega

theorem ofType0_storage (env : Env) (raw : StdArray sizeofValue) (t : ValueType0) (pos : ℕ) :
    (TaggedUnion.ofType0 env raw t pos).1.value.mem.1 = t.data.1 ++ raw.1.drop struct1 ∧
      (TaggedUnion.ofType0 env raw t pos).2 = pos + struct1 := by
  simp only [TaggedUnion.ofType0, Value.assignT0, store, (valueNew_segment env raw pos).1,
    (valueNew_segment env raw pos).2, drop_default env raw.1 pos struct1 (by decide)]
  exact ⟨trivial, trivial⟩

theorem ofType1_storage (env : Env) (raw : StdArray sizeofValue) (t : ValueType1) (pos : ℕ) :
    (TaggedUnion.ofType1 env raw t pos).1.value.mem.1 = t.data.1 ++ raw.1.drop struct2 ∧
      (TaggedUnion.ofType1 env raw t pos).2 = pos + struct1 := by
  simp only [TaggedUnion.ofType1, Value.assignT1, store, (valueNew_segment env raw pos).1,
    (valueNew_segment env raw pos).2, drop_default env raw.1 pos struct2 (by decide)]
  exact ⟨trivial, trivial⟩

theorem ofType2_storage (env : Env) (raw : StdArray sizeofValue) (t : ValueType2) (pos : ℕ) :
    (TaggedUnion.ofType2 env raw t pos).1.value.mem.1 = t.data.1 ++ raw.1.drop struct3 ∧
      (TaggedUnion.ofType2 env raw t pos).2 = pos + struct1 := by
  simp only [TaggedUnion.ofType2, Value.assignT2, store, (valueNew_segment env raw pos).1,
    (valueNew_segment env raw pos).2, drop_default env raw.1 pos struct3 (by decide)]
  exact ⟨trivial, trivial⟩


theorem pushUnion_storage (env : Env) (l : List TaggedUnion) (u : TaggedUnion) :
    (pushUnion env l u).map (fun v => (v.tag, v.value.mem.1))
      = l.map (fun v => (v.tag, v.value.mem.1)) ++ [(u.tag, u.value.mem.1)] := by
  simp [pushUnion, copy_eq]

/-- What the `switch` of one iteration draws and appends, entered at cursor `pos`. -/
theorem populateSwitch_draws (env : Env) (s : Population) (k pos : ℕ) (hk : k < 3) :
    (populateSwitch env s k pos).pos = pos + 2 * shapeLength k + struct1 ∧
    (populateSwitch env s k pos).ptrVec.map (·.getData)
      = s.ptrVec.map (·.getData) ++ [(env.segment pos (shapeLength k), shapeLength k)] ∧
    (populateSwitch env s k pos).unionVec.map (fun v => (v.tag, v.value.mem.1))
      = s.unionVec.map (fun v => (v.tag, v.value.mem.1))
          ++ [(k, env.segment (pos + shapeLength k) (shapeLength k)
                ++ (env.uninit sizeofValue).1.drop (shapeLength k))] ∧
    (populateSwitch env s k pos).heapFragmenter = s.heapFragmenter := by
  interval_cases k
  · refine ⟨?_, ?_, ?_, rfl⟩
    · simp only [populateSwitch, (ofType0_storage env _ _ _).2, (new_segment env _ _).2]
      simp only [shapeLength, List.getD_cons_zero]; omega
    · simp only [populateSwitch, List.map_append, List.map_cons, List.map_nil,
        ValueBase.getData, ValueDerived.getData, (new_segment env _ _).1]
      rfl
    · simp only [populateSwitch, pushUnion_storage, (ofType0_storage env _ _ _).1,
        (new_segment env _ _).1, (new_segment env _ _).2]
      rfl
  · refine ⟨?_, ?_, ?_, rfl⟩
    · simp only [populateSwitch, (ofType1_storage env _ _ _).2, (new_segment env _ _).2]
      simp only [shapeLength, List.getD_cons_succ, List.getD_cons_zero]; omega
    · simp only [populateSwitch, List.map_append, List.map_cons, List.map_nil,
        ValueBase.getData, ValueDerived.getData, (new_segment env _ _).1]
      rfl
    · simp only [populateSwitch, pushUnion_storage, (ofType1_storage env _ _ _).1,
        (new_segment env _ _).1, (new_segment env _ _).2]
      rfl
  · refine ⟨?_, ?_, ?_, rfl⟩
    · simp only [populateSwitch, (ofType2_storage env _ _ _).2, (new_segment env _ _).2]
      simp only [shapeLength, List.getD_cons_succ, List.getD_cons_zero]; omega
    · simp only [populateSwitch, List.map_append, List.map_cons, List.map_nil,
        ValueBase.getData, ValueDerived.getData, (new_segment env _ _).1]
      rfl
    · simp only [populateSwitch, pushUnion_storage, (ofType2_storage env _ _ _).1,
        (new_segment env _ _).1, (new_segment env _ _).2]
      rfl


/-- C15: one iteration of the population loop, entered at cursor p with shape
selector k (buffer length N) read at p and fragmenter selector read at p + 1,
advances the cursor by 2 + 2 N + 81, and by 243 more when the fragmenter is
chosen.  The polymorphic record is made of entries p + 2 .. p + 2 + N - 1, the
live buffer of the tagged union of the N entries after them, the next 81
entries are the values of the default construction of the union storage (none
of which remains in the storage: behind the live buffer are slots that were
never written), and the fragmenter record is made of the last 243 entries.
Iteration i of `populate` is this step from the state after i iterations. -/
theorem C15_stream_consumption (env : Env) (s : Population) (i : ℕ)
    (raw : StdArray sizeofValue) (pos : ℕ) :
    (populateStep env s).pos
      = s.pos + 2 + 2 * shapeLength (env.rng s.pos % 3) + 81
          + (if env.rng (s.pos + 1) % 2 = 0 then 243 else 0) ∧
    (populateStep env s).ptrVec.map (·.getData)
      = s.ptrVec.map (·.getData)
          ++ [(env.segment (s.pos + 2) (shapeLength (env.rng s.pos % 3)),
               shapeLength (env.rng s.pos % 3))] ∧
    (populateStep env s).unionVec.map (fun v => (v.tag, v.value.mem.1))
      = s.unionVec.map (fun v => (v.tag, v.value.mem.1))
          ++ [(env.rng s.pos % 3,
               env.segment (s.pos + 2 + shapeLength (env.rng s.pos % 3))
                   (shapeLength (env.rng s.pos % 3))
                 ++ (env.uninit sizeofValue).1.drop (shapeLength (env.rng s.pos % 3)))] ∧
    (populateStep env s).heapFragmenter.map (·.getData)
      = s.heapFragmenter.map (·.getData)
          ++ (if env.rng (s.pos + 1) % 2 = 0
              then [(env.segment (s.pos + 2 + 2 * shapeLength (env.rng s.pos % 3) + 81) 243, 243)]
              else []) ∧
    ((Value.new env raw pos).1.mem.1.take 81 = env.segment pos 81 ∧
      (Value.new env raw pos).2 = pos + 81) ∧
    (shapeLength 0 = 81 ∧ shapeLength 1 = 162 ∧ shapeLength 2 = 243) ∧
    populate env (i + 1) = populateStep env (populate env i) := by
  have h3 : env.rng s.pos % 3 < 3 := Nat.mod_lt _ (by norm_num)
  obtain ⟨a1, a2, a3, a4⟩ := populateSwitch_draws env s (env.rng s.pos % 3) (s.pos + 2) h3
  refine ⟨?_, ?_, ?_, ?_, ⟨?_, (valueNew_segment env raw pos).2⟩, ⟨rfl, rfl, rfl⟩,
    populate_succ env i⟩
  · unfold populateStep
    simp only []
    split_ifs with h
    · simp only [(new_segment env _ _).2, a1, struct1, struct3]
    · rw [a1]; simp only [struct1]
  · unfold populateStep
    simp only []
    split_ifs with h
    · exact a2
    · exact a2
  · unfold populateStep
    simp only []
    split_ifs with h
    · rw [← a3]
    · rw [← a3]
  · unfold populateStep
    simp only []
    split_ifs with h
    · simp only [List.map_append, List.map_cons, List.map_nil, a4, ValueBase.getData,
        ValueDerived.getData, (new_segment env _ _).1, a1]
      simp only [struct1, struct3]
    · simp only [a4, List.append_nil]
  · rw [(valueNew_segment env raw pos).1]
    have hl : (env.segment pos struct1).length = 81 := segment_length env pos struct1
    rw [← hl, List.take_left]
    rfl

end PtrVecVsUnionVec
